import Mathlib

/-!
Shallow embedding of `src/app.py` (Pocket Chef recipe backend).

Python strings are modelled as Lean `String`, Python ints as `Int` (unbounded,
like Python), Python `None`/absent JSON fields as `Option`, and JSON values as
the inductive `Json` below.  HTTP handlers become pure functions from a
database state `DB` to `Except String (DB × ...)`; an `Except.error` models an
error response (4xx), after which no mutation is committed (Flask-SQLAlchemy
discards the uncommitted session when a request aborts before `commit`).
-/

/-- Characters stripped by Python `str.strip()` (ASCII whitespace). -/
def isPySpace (c : Char) : Bool :=
  c = ' ' || c = '\t' || c = '\n' || c = '\r' || c = '\x0b' || c = '\x0c'

/-- Python `str.strip()` on a character list. -/
def pstripList (l : List Char) : List Char :=
  ((l.dropWhile isPySpace).reverse.dropWhile isPySpace).reverse

/-- Python `str.strip()`. -/
def pstrip (s : String) : String := ⟨pstripList s.data⟩

/-- Separator characters of the fallback path of `parse_list_field`:
`s.replace(",", "\n").split("\n")` splits exactly at commas and newlines. -/
def isSepChar (c : Char) : Bool := c = ',' || c = '\n'

/-- Python `str.split(sep)` semantics for a one-character separator class:
splitting the empty string yields one empty segment, and every separator
occurrence starts a new segment. -/
def splitSeps : List Char → List (List Char)
  | [] => [[]]
  | c :: cs =>
    if isSepChar c then [] :: splitSeps cs
    else
      match splitSeps cs with
      | [] => [[c]]
      | t :: ts => (c :: t) :: ts

/-- The fallback path of `parse_list_field` (lines 64-70 of app.py): split the
string at commas/newlines, strip each segment, drop empties, keep order. -/
def splitClean (s : String) : List String :=
  ((splitSeps s.data).map (fun l => (⟨pstripList l⟩ : String))).filter
    (fun t => t ≠ "")

/-- JSON values as produced by Python `json.loads` (numbers are kept as exact
decimals `m * 10 ^ e` with a flag recording whether the literal was lexed as a
Python float; `nanv`/`infv` cover the non-standard `NaN`/`Infinity` literals
Python accepts). -/
inductive Json where
  | null
  | bool (b : Bool)
  | num (m : Int) (e : Int) (isFloat : Bool)
  | str (s : String)
  | arr (xs : List Json)
  | obj (kvs : List (String × Json))
  | nanv
  | infv (neg : Bool)

/-- Python truthiness of a JSON-decoded value. -/
def pyTruthy : Json → Bool
  | .null => false
  | .bool b => b
  | .num m _ _ => m ≠ 0
  | .str s => s ≠ ""
  | .arr xs => !xs.isEmpty
  | .obj kvs => !kvs.isEmpty
  | .nanv => true
  | .infv _ => true

def lbraceChar : Char := Char.ofNat 123
def rbraceChar : Char := Char.ofNat 125

/-- Rendering of a parsed float (approximates Python `str(float)`; exact for
short decimal literals without redundant digits.  No claim below depends on
float rendering). -/
def pyFloatRender (m : Int) (e : Int) : String :=
  if 0 ≤ e then toString (m * (10 : Int) ^ e.toNat) ++ ".0"
  else
    let k := (-e).toNat
    let sign := if m < 0 then "-" else ""
    let a := m.natAbs
    let ip := a / 10 ^ k
    let fp := a % 10 ^ k
    let fpDigits := toString fp
    sign ++ toString ip ++ "." ++
      (String.mk (List.replicate (k - fpDigits.length) '0') ++ fpDigits)

mutual
/-- Python `str(x)` on a JSON-decoded value. -/
def pyStr : Json → String
  | .null => "None"
  | .bool true => "True"
  | .bool false => "False"
  | .num m e f => if f then pyFloatRender m e else toString m
  | .str s => s
  | .arr xs => "[" ++ String.intercalate ", " (pyReprList xs) ++ "]"
  | .obj kvs => "\x7b" ++ String.intercalate ", " (pyReprPairs kvs) ++ "\x7d"
  | .nanv => "nan"
  | .infv true => "-inf"
  | .infv false => "inf"

/-- Python `repr(x)` (as used by `str` on containers): strings get quotes. -/
def pyRepr : Json → String
  | .str s => "'" ++ s ++ "'"
  | .null => "None"
  | .bool true => "True"
  | .bool false => "False"
  | .num m e f => if f then pyFloatRender m e else toString m
  | .arr xs => "[" ++ String.intercalate ", " (pyReprList xs) ++ "]"
  | .obj kvs => "\x7b" ++ String.intercalate ", " (pyReprPairs kvs) ++ "\x7d"
  | .nanv => "nan"
  | .infv true => "-inf"
  | .infv false => "inf"

def pyReprList : List Json → List String
  | [] => []
  | x :: xs => pyRepr x :: pyReprList xs

def pyReprPairs : List (String × Json) → List String
  | [] => []
  | (k, v) :: kvs => ("'" ++ k ++ "': " ++ pyRepr v) :: pyReprPairs kvs
end

/-- JSON inter-token whitespace. -/
def isJsonWs (c : Char) : Bool := c = ' ' || c = '\t' || c = '\n' || c = '\r'

def skipWs (cs : List Char) : List Char := cs.dropWhile isJsonWs

def hexVal (c : Char) : Option Nat :=
  if '0' ≤ c ∧ c ≤ '9' then some (c.toNat - '0'.toNat)
  else if 'a' ≤ c ∧ c ≤ 'f' then some (c.toNat - 'a'.toNat + 10)
  else if 'A' ≤ c ∧ c ≤ 'F' then some (c.toNat - 'A'.toNat + 10)
  else none

/-- Single-character JSON string escapes. -/
def escChar (c : Char) : Option Char :=
  if c = '"' then some '"'
  else if c = '\\' then some '\\'
  else if c = '/' then some '/'
  else if c = 'b' then some (Char.ofNat 8)
  else if c = 'f' then some (Char.ofNat 12)
  else if c = 'n' then some '\n'
  else if c = 'r' then some '\r'
  else if c = 't' then some '\t'
  else none

/-- Parse the body of a JSON string literal (opening quote already consumed);
returns content and remaining input.  Raw control characters are rejected, as
in Python's strict mode.  Fuel-indexed; one character is consumed per step. -/
def parseStrCore : Nat → List Char → Option (List Char × List Char)
  | 0, _ => none
  | _, [] => none
  | fuel + 1, c :: cs =>
    if c = '"' then some ([], cs)
    else if c = '\\' then
      match cs with
      | [] => none
      | e :: cs' =>
        if e = 'u' then
          match cs' with
          | h1 :: h2 :: h3 :: h4 :: cs'' =>
            match hexVal h1, hexVal h2, hexVal h3, hexVal h4 with
            | some a, some b, some c2, some d =>
              match parseStrCore fuel cs'' with
              | some (out, rest) =>
                some (Char.ofNat (((a * 16 + b) * 16 + c2) * 16 + d) :: out, rest)
              | none => none
            | _, _, _, _ => none
          | _ => none
        else
          match escChar e with
          | some ch =>
            match parseStrCore fuel cs' with
            | some (out, rest) => some (ch :: out, rest)
            | none => none
          | none => none
    else if c.toNat < 32 then none
    else
      match parseStrCore fuel cs with
      | some (out, rest) => some (c :: out, rest)
      | none => none

def digitsToNat (ds : List Char) : Nat :=
  ds.foldl (fun a c => a * 10 + (c.toNat - '0'.toNat)) 0

/-- Parse a JSON number literal (strict grammar: optional minus, no leading
zeros, optional fraction and exponent each requiring at least one digit). -/
def parseNumber (cs : List Char) : Option (Json × List Char) :=
  let sgn : Int := match cs with | '-' :: _ => -1 | _ => 1
  let cs1 := match cs with | '-' :: r => r | _ => cs
  let ip := cs1.takeWhile Char.isDigit
  let r1 := cs1.dropWhile Char.isDigit
  if ip = [] then none
  else if 1 < ip.length ∧ ip.headD '1' = '0' then none
  else
    let hasDot : Bool := match r1 with | '.' :: _ => true | _ => false
    let fd := match r1 with | '.' :: r => r.takeWhile Char.isDigit | _ => []
    let r2 := match r1 with | '.' :: r => r.dropWhile Char.isDigit | _ => r1
    if hasDot && decide (fd = []) then none
    else
      let mval : Int := sgn * (digitsToNat (ip ++ fd) : Int)
      match r2 with
      | c :: r2' =>
        if c = 'e' ∨ c = 'E' then
          let es : Int := match r2' with | '-' :: _ => -1 | _ => 1
          let r2'' := match r2' with | '+' :: r => r | '-' :: r => r | _ => r2'
          let ed := r2''.takeWhile Char.isDigit
          let r3 := r2''.dropWhile Char.isDigit
          if ed = [] then none
          else
            some (Json.num mval (es * (digitsToNat ed : Int) - fd.length) true, r3)
        else some (Json.num mval (-(fd.length : Int)) hasDot, c :: r2')
      | [] => some (Json.num mval (-(fd.length : Int)) hasDot, [])

mutual
/-- Recursive-descent JSON value parser (models Python `json.loads`).  Fuel
bounds nesting depth; at least one character is consumed before each
recursive call, so `length + 1` fuel always suffices. -/
def parseValue : Nat → List Char → Option (Json × List Char)
  | 0, _ => none
  | fuel + 1, cs =>
    match skipWs cs with
    | [] => none
    | c :: rest =>
      if c = '"' then
        match parseStrCore (rest.length + 1) rest with
        | some (content, r) => some (Json.str ⟨content⟩, r)
        | none => none
      else if c = '[' then
        match skipWs rest with
        | ']' :: r => some (Json.arr [], r)
        | _ =>
          match parseItems fuel rest with
          | some (xs, r) => some (Json.arr xs, r)
          | none => none
      else if c = lbraceChar then
        match skipWs rest with
        | c2 :: r =>
          if c2 = rbraceChar then some (Json.obj [], r)
          else
            match parsePairs fuel rest with
            | some (kvs, r') => some (Json.obj kvs, r')
            | none => none
        | [] => none
      else if c = 't' then
        match rest with
        | 'r' :: 'u' :: 'e' :: r => some (Json.bool true, r)
        | _ => none
      else if c = 'f' then
        match rest with
        | 'a' :: 'l' :: 's' :: 'e' :: r => some (Json.bool false, r)
        | _ => none
      else if c = 'n' then
        match rest with
        | 'u' :: 'l' :: 'l' :: r => some (Json.null, r)
        | _ => none
      else if c = 'N' then
        match rest with
        | 'a' :: 'N' :: r => some (Json.nanv, r)
        | _ => none
      else if c = 'I' then
        match rest with
        | 'n' :: 'f' :: 'i' :: 'n' :: 'i' :: 't' :: 'y' :: r =>
          some (Json.infv false, r)
        | _ => none
      else if c == '-' && (match rest with | 'I' :: _ => true | _ => false) then
        match rest with
        | 'I' :: 'n' :: 'f' :: 'i' :: 'n' :: 'i' :: 't' :: 'y' :: r =>
          some (Json.infv true, r)
        | _ => none
      else parseNumber (c :: rest)

/-- Comma-separated array elements up to the closing bracket. -/
def parseItems : Nat → List Char → Option (List Json × List Char)
  | 0, _ => none
  | fuel + 1, cs =>
    match parseValue fuel cs with
    | none => none
    | some (v, r) =>
      match skipWs r with
      | c :: r' =>
        if c = ',' then
          match parseItems fuel r' with
          | some (vs, r'') => some (v :: vs, r'')
          | none => none
        else if c = ']' then some ([v], r')
        else none
      | [] => none

/-- Comma-separated object members up to the closing brace. -/
def parsePairs : Nat → List Char → Option (List (String × Json) × List Char)
  | 0, _ => none
  | fuel + 1, cs =>
    match skipWs cs with
    | c :: r =>
      if c = '"' then
        match parseStrCore (r.length + 1) r with
        | some (k, r1) =>
          match skipWs r1 with
          | ':' :: r2 =>
            match parseValue fuel r2 with
            | some (v, r3) =>
              match skipWs r3 with
              | c2 :: r4 =>
                if c2 = ',' then
                  match parsePairs fuel r4 with
                  | some (kvs, r5) => some ((⟨k⟩, v) :: kvs, r5)
                  | none => none
                else if c2 = rbraceChar then some ([(⟨k⟩, v)], r4)
                else none
              | [] => none
            | none => none
          | _ => none
        | none => none
      else none
    | [] => none
end

/-- Python `json.loads`: parse one value and require only trailing
whitespace. -/
def jsonLoads (s : String) : Option Json :=
  match parseValue (s.length + 1) s.data with
  | some (j, rest) => if skipWs rest = [] then some j else none
  | none => none

/-- `[str(x).strip() for x in xs if str(x).strip()]` (lines 50 and 60). -/
def strMapClean (xs : List Json) : List String :=
  (xs.map (fun x => pstrip (pyStr x))).filter (fun t => t ≠ "")

/-- `parse_list_field` (app.py lines 38-72).  The argument is the value found
at the key: `none` models an absent key (`data.get` returns `None`), and
`Json.null` the literal `null`, both hitting the `value is None` branch. -/
def parse_list_field (value : Option Json) : List String :=
  match value with
  | none => []
  | some Json.null => []
  | some (Json.arr xs) => strMapClean xs
  | some (Json.str v) =>
    let s := pstrip v
    if s = "" then []
    else
      match jsonLoads s with
      | some (Json.arr xs) => strMapClean xs
      | _ => splitClean s
  | some _ => []

example : parse_list_field (some (Json.str "[\"a\",\"b\"]")) = ["a", "b"] := by
  decide

example : parse_list_field (some (Json.str "a,b")) = ["a", "b"] := by decide

example : parse_list_field (some (Json.str "a\nb")) = ["a", "b"] := by decide

example :
    parse_list_field (some (Json.arr [Json.str "a", Json.str "b"])) =
      ["a", "b"] := by decide

/-- A digit run with optional single underscores between digits (what Python
`int(str)` accepts after sign/whitespace handling). -/
def digitsUS : List Char → Bool
  | [] => true
  | c :: rest =>
    if c.isDigit then digitsUS rest
    else if c = '_' then
      match rest with
      | d :: _ => d.isDigit && digitsUS rest
      | [] => false
    else false

def pyIntDigits (l : List Char) : Bool :=
  match l with
  | [] => false
  | c :: _ => c.isDigit && digitsUS l

/-- Python `int(s)` on a string: strip whitespace, optional sign, digits with
optional underscores; `none` when `int()` raises ValueError. -/
def pyIntStr (s : String) : Option Int :=
  let t := pstripList s.data
  let sgn : Int := match t with | '-' :: _ => -1 | _ => 1
  let body := match t with | '+' :: r => r | '-' :: r => r | _ => t
  if pyIntDigits body then
    some (sgn * (digitsToNat (body.filter (fun c => c ≠ '_')) : Int))
  else none

/-- Truncation toward zero of the decimal `m * 10 ^ e` (Python `int(float)`;
`Int.div` is T-division). -/
def jsonIntTrunc (m e : Int) : Int :=
  if 0 ≤ e then m * (10 : Int) ^ e.toNat
  else Int.tdiv m ((10 : Int) ^ (-e).toNat)

/-- Python `int(v or 0)` on a JSON-decoded value: `some n` when it evaluates
to an integer, `none` when `int()` raises (ValueError/TypeError on truthy
strings without integer syntax, lists, dicts, nan, inf). -/
def pyIntOf (v : Json) : Option Int :=
  if pyTruthy v then
    match v with
    | .bool b => some (if b then 1 else 0)
    | .num m e _ => some (jsonIntTrunc m e)
    | .str s => pyIntStr s
    | _ => none
  else some 0

/-- Python `(v or "").strip()` on a JSON-decoded value: `some` the stripped
string, or `none` when `.strip()` raises TypeError (truthy non-string). -/
def pyStrStrip (v : Json) : Option String :=
  if pyTruthy v then
    match v with
    | .str s => some (pstrip s)
    | _ => none
  else some ""

/-- `(data.get(k) or "").strip()` for a form (string-valued) field; an absent
key and an empty string both hit the `or ""` fallback. -/
def getStrip (v : Option String) : String :=
  pstrip (v.getD "")

/-- `try: int(data.get(k) or 0) except: 0` for a form field (create path). -/
def getInt0 (v : Option String) : Int :=
  match v with
  | none => 0
  | some s => if s = "" then 0 else (pyIntStr s).getD 0

-- -------------------- data model --------------------

structure UserR where
  id : Nat
  username : String
  password : String
  role : String
deriving Repr, DecidableEq

structure RecipeR where
  id : Nat
  title : String
  category : String
  prepTime : Int
  image : String
  ingredients : List String
  steps : List String
  likes : Int
  author : String
  rating : Int
deriving Repr, DecidableEq

structure LikeR where
  id : Nat
  user_id : Nat
  recipe_id : Nat
deriving Repr, DecidableEq

/-- Database state: the three tables the claims touch, plus autoincrement
counters for primary keys. -/
structure DB where
  users : List UserR
  recipes : List RecipeR
  likes : List LikeR
  nextUserId : Nat
  nextRecipeId : Nat
  nextLikeId : Nat
deriving Repr, DecidableEq

def emptyDB : DB := ⟨[], [], [], 1, 1, 1⟩

/-- Update the first matching element (SQLAlchemy mutates the one object a
`first()`/`get()` query returned). -/
def modifyFirst (p : α → Bool) (f : α → α) : List α → List α
  | [] => []
  | x :: xs => if p x then f x :: xs else x :: modifyFirst p f xs

/-- Delete the first matching element. -/
def eraseFirst (p : α → Bool) : List α → List α
  | [] => []
  | x :: xs => if p x then xs else x :: eraseFirst p xs

-- -------------------- create --------------------

def ALLOWED_EXTENSIONS : List String := ["png", "jpg", "jpeg", "gif", "webp", "avif"]

def afterLastDot (s : String) : String :=
  ⟨(s.data.reverse.takeWhile (fun c => c ≠ '.')).reverse⟩

/-- `allowed_file` (lines 30-31): has a dot and the extension after the last
dot, lowercased, is allowlisted. -/
def allowed_file (filename : String) : Bool :=
  filename.data.contains '.' &&
    ALLOWED_EXTENSIONS.contains (afterLastDot filename).toLower

/-- The `request.form` of POST /recipes: every value is a string (FormData). -/
structure Form where
  title : Option String := none
  category : Option String := none
  author : Option String := none
  prepTime : Option String := none
  rating : Option String := none
  likes : Option String := none
  ingredients : Option String := none
  steps : Option String := none
  image : Option String := none

/-- An uploaded file: `uniqueName` models `f"{uuid4().hex}_{secure_filename(filename)}"`
(collision-resistant name chosen by the server). -/
structure Upload where
  filename : String
  uniqueName : String

/-- POST /recipes = `add_recipe` (lines 151-227).  Returns the new state and
the created row; `.error` models a 400 response (nothing committed). -/
def add_recipe (db : DB) (form : Form) (file : Option Upload) :
    Except String (DB × RecipeR) :=
  let title := getStrip form.title
  if title = "" then .error "title is required"
  else
    let proceed : String → Except String (DB × RecipeR) := fun image_url =>
      let r : RecipeR :=
        { id := db.nextRecipeId
          title := title
          category := getStrip form.category
          prepTime := getInt0 form.prepTime
          image := image_url
          ingredients := parse_list_field (form.ingredients.map Json.str)
          steps := parse_list_field (form.steps.map Json.str)
          likes := getInt0 form.likes
          author := getStrip form.author
          rating := getInt0 form.rating }
      .ok ({ db with recipes := db.recipes ++ [r],
                     nextRecipeId := db.nextRecipeId + 1 }, r)
    match file with
    | some f =>
      if f.filename ≠ "" then
        if ¬ allowed_file f.filename then .error "Invalid file type"
        else proceed ("/uploads/" ++ f.uniqueName)
      else proceed (getStrip form.image)
    | none => proceed (getStrip form.image)

-- -------------------- update --------------------

/-- The JSON body of PUT /recipes/<rid>: `none` = key absent. -/
structure UpdateBody where
  title : Option Json := none
  category : Option Json := none
  prepTime : Option Json := none
  image : Option Json := none
  ingredients : Option Json := none
  steps : Option Json := none
  rating : Option Json := none

/-- `if "title" in data: recipe.title = (data.get("title") or "").strip() or recipe.title`
(line 239-240).  `none` result models the TypeError `.strip()` raises on a
truthy non-string. -/
def applyTitle (v? : Option Json) (r : RecipeR) : Option RecipeR :=
  match v? with
  | none => some r
  | some v => (pyStrStrip v).map fun t =>
      if t = "" then r else { r with title := t }

/-- `if "category" in data: recipe.category = (data.get("category") or "").strip()`
(lines 241-242). -/
def applyCategory (v? : Option Json) (r : RecipeR) : Option RecipeR :=
  match v? with
  | none => some r
  | some v => (pyStrStrip v).map fun c => { r with category := c }

/-- `if "prepTime" in data: try: recipe.prepTime = int(... or 0) except: pass`
(lines 243-247). -/
def applyPrepTime (v? : Option Json) (r : RecipeR) : RecipeR :=
  match v? with
  | none => r
  | some v =>
    match pyIntOf v with
    | some n => { r with prepTime := n }
    | none => r

/-- `if "image" in data: recipe.image = (data.get("image") or "").strip()`
(lines 248-249). -/
def applyImage (v? : Option Json) (r : RecipeR) : Option RecipeR :=
  match v? with
  | none => some r
  | some v => (pyStrStrip v).map fun i => { r with image := i }

/-- `if "ingredients" in data: recipe.ingredients = parse_list_field(...)`
(lines 250-251). -/
def applyIngredients (v? : Option Json) (r : RecipeR) : RecipeR :=
  match v? with
  | none => r
  | some v => { r with ingredients := parse_list_field (some v) }

/-- `if "steps" in data: recipe.steps = parse_list_field(...)` (lines 252-253). -/
def applySteps (v? : Option Json) (r : RecipeR) : RecipeR :=
  match v? with
  | none => r
  | some v => { r with steps := parse_list_field (some v) }

/-- `if "rating" in data: try: recipe.rating = int(... or 0) except: recipe.rating = 0`
(lines 254-258). -/
def applyRating (v? : Option Json) (r : RecipeR) : RecipeR :=
  match v? with
  | none => r
  | some v =>
    match pyIntOf v with
    | some n => { r with rating := n }
    | none => { r with rating := 0 }

/-- The seven field updates of `edit_recipe`, in source order. -/
def applyUpdates (body : UpdateBody) (r0 : RecipeR) : Option RecipeR :=
  (((applyTitle body.title r0).bind (applyCategory body.category)).map
      (applyPrepTime body.prepTime) |>.bind (applyImage body.image)).map
    fun r => applyRating body.rating (applySteps body.steps
      (applyIngredients body.ingredients r))

/-- PUT /recipes/<rid> = `edit_recipe` (lines 230-261).  Field updates are
applied in source order; a TypeError from `.strip()` on a truthy non-string
aborts the request before `commit`, so nothing is persisted then
(`.error "TypeError"`). -/
def edit_recipe (db : DB) (rid : Nat) (body : UpdateBody) : Except String DB :=
  match db.recipes.find? (fun r => r.id == rid) with
  | none => .error "Recipe not found"
  | some r0 =>
    match applyUpdates body r0 with
    | none => .error "TypeError"
    | some r' =>
      .ok { db with
            recipes := modifyFirst (fun r => r.id == rid) (fun _ => r') db.recipes }

-- -------------------- delete --------------------

/-- DELETE /recipes/<rid> = `delete_recipe` (lines 264-282).  The `likes`
table has a foreign key on `recipes.id` with no cascade, so committing the
delete while Like rows reference the recipe raises IntegrityError; that is
modelled as an error with no state change.  (Comment and Favorite rows would
block a delete the same way; those tables are outside every claim and are not
modelled.)  Removing a locally stored image file is a filesystem effect with
no database counterpart and is not part of the state. -/
def delete_recipe (db : DB) (rid : Nat) : Except String DB :=
  match db.recipes.find? (fun r => r.id == rid) with
  | none => .error "Recipe not found"
  | some r =>
    if db.likes.any (fun l => l.recipe_id == r.id) then .error "IntegrityError"
    else .ok { db with recipes := eraseFirst (fun r2 => r2.id == rid) db.recipes }

-- -------------------- toggle like --------------------

/-- POST /recipes/<rid>/like = `like_recipe` (lines 285-314).  `username?` is
the request body's username field; `none` covers an absent, null or
non-string value, none of which can match a stored (non-null, string)
username.  On success, returns the new state, the action string and the
counter value the handler reports. -/
def like_recipe (db : DB) (rid : Nat) (username? : Option String) :
    Except String (DB × String × Int) :=
  match db.users.find? (fun u => some u.username == username?) with
  | none => .error "User not found"
  | some user =>
    match db.recipes.find? (fun r => r.id == rid) with
    | none => .error "Recipe not found"
    | some recipe =>
      let isPair : LikeR → Bool := fun l =>
        l.user_id == user.id && l.recipe_id == recipe.id
      match db.likes.find? isPair with
      | some _ =>
        let newLikes := max 0 (recipe.likes - 1)
        .ok ({ db with
               likes := eraseFirst isPair db.likes
               recipes := modifyFirst (fun r => r.id == recipe.id)
                 (fun r => { r with likes := newLikes }) db.recipes },
             "unliked", newLikes)
      | none =>
        let newLikes := recipe.likes + 1
        .ok ({ db with
               likes := db.likes ++ [⟨db.nextLikeId, user.id, recipe.id⟩]
               nextLikeId := db.nextLikeId + 1
               recipes := modifyFirst (fun r => r.id == recipe.id)
                 (fun r => { r with likes := newLikes }) db.recipes },
             "liked", newLikes)

-- -------------------- register --------------------

/-- `data.get("role") or "user"` (line 365): the stored role string.  `none`
models an absent key or a falsy non-string value; an empty string is also
falsy and hits the `or` fallback. -/
def roleOf (role? : Option String) : String :=
  match role? with
  | none => "user"
  | some r => if r = "" then "user" else r

/-- POST /register = `register` (lines 350-373). -/
def register (db : DB) (username? password? role? : Option String) :
    Except String (DB × UserR) :=
  let username := getStrip username?
  let password := getStrip password?
  if username = "" ∨ password = "" then .error "username and password required"
  else if (db.users.find? (fun u => u.username == username)).isSome then
    .error "User exists"
  else
    let u : UserR := ⟨db.nextUserId, username, password, roleOf role?⟩
    .ok ({ db with users := db.users ++ [u], nextUserId := db.nextUserId + 1 }, u)

-- -------------------- invariants --------------------

/-- Number of Like rows referencing a recipe id. -/
def likeCount (db : DB) (rid : Nat) : Nat :=
  (db.likes.filter (fun l => l.recipe_id == rid)).length

/-- Spec §3 invariant: each recipe's `likes` counter equals its Like-row
count. -/
def likesSync (db : DB) : Prop :=
  ∀ r ∈ db.recipes, r.likes = (likeCount db r.id : Int)

/-- Number of Like rows for a given (user, recipe) pair. -/
def pairCount (db : DB) (uid rid : Nat) : Nat :=
  (db.likes.filter (fun l => l.user_id == uid && l.recipe_id == rid)).length

/-- Spec §3 invariant: at most one Like row per (user, recipe) pair
(equivalently: every existing row is the only one for its pair). -/
def likeUnique (db : DB) : Prop :=
  ∀ l ∈ db.likes, pairCount db l.user_id l.recipe_id ≤ 1

/-- Every recipe's likes counter is nonnegative. -/
def likesNonneg (db : DB) : Prop :=
  ∀ r ∈ db.recipes, 0 ≤ r.likes

-- -------------------- helper lemmas: stripping --------------------

theorem head?_dropWhile (p : α → Bool) (l : List α) :
    ∀ a ∈ (l.dropWhile p).head?, p a = false := by
  induction l with
  | nil => simp
  | cons x xs ih =>
    by_cases h : p x
    · rw [List.dropWhile_cons_of_pos h]; exact ih
    · rw [List.dropWhile_cons_of_neg h]
      intro a ha
      simp only [List.head?_cons, Option.mem_def, Option.some.injEq] at ha
      subst ha
      simpa using h

theorem dropWhile_eq_self_of_head (p : α → Bool) (l : List α)
    (h : ∀ a ∈ l.head?, p a = false) : l.dropWhile p = l := by
  cases l with
  | nil => rfl
  | cons x xs =>
    have hx : p x = false := h x (by simp)
    rw [List.dropWhile_cons_of_neg (by simp [hx])]

theorem dropWhile_idem (p : α → Bool) (l : List α) :
    (l.dropWhile p).dropWhile p = l.dropWhile p :=
  dropWhile_eq_self_of_head p _ (head?_dropWhile p l)

theorem getLast?_dropWhile (p : α → Bool) (l : List α)
    (h : l.dropWhile p ≠ []) : (l.dropWhile p).getLast? = l.getLast? := by
  induction l with
  | nil => simp at h
  | cons x xs ih =>
    by_cases hx : p x
    · rw [List.dropWhile_cons_of_pos hx] at h ⊢
      rw [ih h]
      have hxs : xs ≠ [] := by
        intro he; rw [he] at h; simp at h
      cases xs with
      | nil => simp at hxs
      | cons y ys => simp [List.getLast?]
    · rw [List.dropWhile_cons_of_neg hx]

theorem pstripList_head (l : List Char) :
    ∀ a ∈ (pstripList l).head?, isPySpace a = false := by
  intro a ha
  unfold pstripList at ha
  rw [List.head?_reverse] at ha
  by_cases hne : (l.dropWhile isPySpace).reverse.dropWhile isPySpace = []
  · rw [hne] at ha; simp at ha
  · rw [getLast?_dropWhile _ _ hne, List.getLast?_reverse] at ha
    exact head?_dropWhile _ _ a ha

theorem pstripList_getLast (l : List Char) :
    ∀ a ∈ (pstripList l).getLast?, isPySpace a = false := by
  intro a ha
  unfold pstripList at ha
  rw [List.getLast?_reverse] at ha
  exact head?_dropWhile _ _ a ha

theorem pstripList_eq_self {l : List Char}
    (h1 : ∀ a ∈ l.head?, isPySpace a = false)
    (h2 : ∀ a ∈ l.getLast?, isPySpace a = false) : pstripList l = l := by
  unfold pstripList
  rw [dropWhile_eq_self_of_head _ _ h1]
  have h3 : l.reverse.dropWhile isPySpace = l.reverse := by
    apply dropWhile_eq_self_of_head
    intro a ha
    rw [List.head?_reverse] at ha
    exact h2 a ha
  rw [h3, List.reverse_reverse]

theorem pstripList_idem (l : List Char) :
    pstripList (pstripList l) = pstripList l :=
  pstripList_eq_self (pstripList_head l) (pstripList_getLast l)

theorem pstrip_idem (s : String) : pstrip (pstrip s) = pstrip s := by
  show (⟨pstripList (pstripList s.data)⟩ : String) = ⟨pstripList s.data⟩
  rw [pstripList_idem]

theorem pstrip_data (s : String) : (pstrip s).data = pstripList s.data := rfl

theorem pstrip_eq_iff {s : String} : pstrip s = s ↔ pstripList s.data = s.data := by
  constructor
  · intro h
    have := congrArg String.data h
    simpa using this
  · intro h
    show (⟨pstripList s.data⟩ : String) = s
    rw [h]

-- -------------------- helper lemmas: splitting --------------------

theorem splitSeps_ne_nil (l : List Char) : splitSeps l ≠ [] := by
  cases l with
  | nil => simp [splitSeps]
  | cons c cs =>
    unfold splitSeps
    by_cases h : isSepChar c
    · simp [h]
    · simp only [h]
      cases splitSeps cs <;> simp

theorem splitSeps_no_sep {l : List Char}
    (h : ∀ c ∈ l, isSepChar c = false) : splitSeps l = [l] := by
  induction l with
  | nil => rfl
  | cons c cs ih =>
    have hc : isSepChar c = false := h c (by simp)
    have ihh := ih (fun x hx => h x (by simp [hx]))
    unfold splitSeps
    simp only [hc]
    rw [ihh]
    simp

theorem splitSeps_append_sep {l r : List Char} {c : Char}
    (hl : ∀ x ∈ l, isSepChar x = false) (hc : isSepChar c = true) :
    splitSeps (l ++ c :: r) = l :: splitSeps r := by
  induction l with
  | nil => simp [splitSeps, hc]
  | cons a as ih =>
    have ha : isSepChar a = false := hl a (by simp)
    have ihh := ih (fun x hx => hl x (by simp [hx]))
    show splitSeps (a :: (as ++ c :: r)) = (a :: as) :: splitSeps r
    conv_lhs => unfold splitSeps
    simp only [ha, Bool.false_eq_true, if_false]
    rw [ihh]

-- -------------------- helper lemmas: first-match list operations --------------------

theorem modifyFirst_decomp {p : α → Bool} {l : List α} {x : α} (f : α → α)
    (h : l.find? p = some x) :
    ∃ l1 l2, l = l1 ++ x :: l2 ∧ (∀ y ∈ l1, p y = false) ∧
      modifyFirst p f l = l1 ++ f x :: l2 ∧ p x = true := by
  induction l with
  | nil => simp [List.find?] at h
  | cons a as ih =>
    by_cases hp : p a = true
    · rw [List.find?_cons_of_pos _ hp] at h
      cases h
      exact ⟨[], as, by simp, by simp, by simp [modifyFirst, hp], hp⟩
    · rw [List.find?_cons_of_neg _ hp] at h
      obtain ⟨l1, l2, he, hf, hm, hx⟩ := ih h
      refine ⟨a :: l1, l2, by simp [he], ?_, ?_, hx⟩
      · intro y hy
        rcases List.mem_cons.mp hy with rfl | hy'
        · simpa using hp
        · exact hf y hy'
      · simp only [modifyFirst, if_neg hp, hm, List.cons_append]

theorem eraseFirst_decomp {p : α → Bool} {l : List α} {x : α}
    (h : l.find? p = some x) :
    ∃ l1 l2, l = l1 ++ x :: l2 ∧ (∀ y ∈ l1, p y = false) ∧
      eraseFirst p l = l1 ++ l2 ∧ p x = true := by
  induction l with
  | nil => simp [List.find?] at h
  | cons a as ih =>
    by_cases hp : p a = true
    · rw [List.find?_cons_of_pos _ hp] at h
      cases h
      exact ⟨[], as, by simp, by simp, by simp [eraseFirst, hp], hp⟩
    · rw [List.find?_cons_of_neg _ hp] at h
      obtain ⟨l1, l2, he, hf, hm, hx⟩ := ih h
      refine ⟨a :: l1, l2, by simp [he], ?_, ?_, hx⟩
      · intro y hy
        rcases List.mem_cons.mp hy with rfl | hy'
        · simpa using hp
        · exact hf y hy'
      · simp only [eraseFirst, if_neg hp, hm, List.cons_append]

theorem find?_append_prefix_none {p : α → Bool} {l1 : List α} (l2 : List α)
    (h : ∀ y ∈ l1, p y = false) : (l1 ++ l2).find? p = l2.find? p := by
  induction l1 with
  | nil => rfl
  | cons a as ih =>
    have ha : ¬ p a = true := by simp [h a (by simp)]
    rw [List.cons_append, List.find?_cons_of_neg _ ha]
    exact ih (fun y hy => h y (by simp [hy]))

theorem find?_append_cons {p : α → Bool} {l1 l2 : List α} {x : α}
    (hx : p x = true) (h : ∀ y ∈ l1, p y = false) :
    (l1 ++ x :: l2).find? p = some x := by
  rw [find?_append_prefix_none _ h, List.find?_cons_of_pos _ hx]

theorem find?_modifyFirst {p : α → Bool} {l : List α} {x : α} {f : α → α}
    (h : l.find? p = some x) (hf : p (f x) = true) :
    (modifyFirst p f l).find? p = some (f x) := by
  obtain ⟨l1, l2, _, hpre, hm, _⟩ := modifyFirst_decomp f h
  rw [hm, find?_append_cons hf hpre]

theorem mem_eraseFirst {p : α → Bool} {l : List α} {x : α}
    (h : x ∈ eraseFirst p l) : x ∈ l := by
  induction l with
  | nil => simp [eraseFirst] at h
  | cons a as ih =>
    by_cases hp : p a = true
    · simp only [eraseFirst, if_pos hp] at h
      exact List.mem_cons_of_mem _ h
    · simp only [eraseFirst, if_neg hp, List.mem_cons] at h
      rcases h with rfl | h'
      · simp
      · exact List.mem_cons_of_mem _ (ih h')

theorem mem_modifyFirst {p : α → Bool} {f : α → α} {l : List α} {x : α}
    (h : x ∈ modifyFirst p f l) : x ∈ l ∨ ∃ y ∈ l, x = f y := by
  induction l with
  | nil => simp [modifyFirst] at h
  | cons a as ih =>
    by_cases hp : p a = true
    · simp only [modifyFirst, if_pos hp, List.mem_cons] at h
      rcases h with rfl | h'
      · exact Or.inr ⟨a, by simp⟩
      · exact Or.inl (by simp [h'])
    · simp only [modifyFirst, if_neg hp, List.mem_cons] at h
      rcases h with rfl | h'
      · exact Or.inl (by simp)
      · rcases ih h' with hm | ⟨y, hy, hxy⟩
        · exact Or.inl (by simp [hm])
        · exact Or.inr ⟨y, by simp [hy], hxy⟩

theorem eraseFirst_append_none {p : α → Bool} {l1 : List α} (l2 : List α)
    (h : ∀ y ∈ l1, p y = false) :
    eraseFirst p (l1 ++ l2) = l1 ++ eraseFirst p l2 := by
  induction l1 with
  | nil => rfl
  | cons a as ih =>
    have ha : ¬ p a = true := by simp [h a (by simp)]
    simp only [List.cons_append, eraseFirst, if_neg ha]
    have := ih (fun y hy => h y (by simp [hy]))
    simpa using this

theorem find?_eraseFirst_of_le_one {p : α → Bool} {l : List α}
    (h : (l.filter p).length ≤ 1) : (eraseFirst p l).find? p = none := by
  induction l with
  | nil => rfl
  | cons a as ih =>
    by_cases hp : p a = true
    · simp only [eraseFirst, if_pos hp]
      rw [List.filter_cons_of_pos hp] at h
      simp only [List.length_cons] at h
      have hlen : (as.filter p).length = 0 := by omega
      have : as.filter p = [] := List.length_eq_zero.mp hlen
      apply List.find?_eq_none.mpr
      intro x hx
      have := List.filter_eq_nil_iff.mp this x hx
      simpa using this
    · simp only [eraseFirst, if_neg hp]
      rw [List.find?_cons_of_neg _ hp]
      apply ih
      rwa [List.filter_cons_of_neg hp] at h

-- -------------------- observations --------------------

/-- `Recipe.query.get(rid)`: the stored recipe with the given id. -/
def getRecipe (db : DB) (rid : Nat) : Option RecipeR :=
  db.recipes.find? (fun r => r.id == rid)

/-- The likes counter of the recipe with the given id, if it exists. -/
def likesOf (db : DB) (rid : Nat) : Option Int :=
  (getRecipe db rid).map RecipeR.likes

/-- Whether a Like row for the (user, recipe) pair exists. -/
def likeRowExists (db : DB) (uid rid : Nat) : Bool :=
  db.likes.any (fun l => l.user_id == uid && l.recipe_id == rid)


-- ==================== claim theorems ====================

/-- C9: `register` persists the client-supplied role string verbatim,
whatever its value (e.g. "admin"); the stored role is "user" exactly when the
role field is absent or falsy (empty string). -/
theorem C9_register_role_verbatim :
    (∀ db u? p? r db' usr, register db u? p? (some r) = .ok (db', usr) →
        r ≠ "" → usr.role = r) ∧
    (∀ db u? p? db' usr, register db u? p? none = .ok (db', usr) →
        usr.role = "user") ∧
    (∀ db u? p? db' usr, register db u? p? (some "") = .ok (db', usr) →
        usr.role = "user") := by
  refine ⟨?_, ?_, ?_⟩
  · intro db u? p? r db' usr h hr
    unfold register at h
    simp only [] at h
    split at h
    · simp at h
    · split at h
      · simp at h
      · simp only [Except.ok.injEq, Prod.mk.injEq] at h
        obtain ⟨-, husr⟩ := h
        rw [← husr]
        simp [roleOf, hr]
  · intro db u? p? db' usr h
    unfold register at h
    simp only [] at h
    split at h
    · simp at h
    · split at h
      · simp at h
      · simp only [Except.ok.injEq, Prod.mk.injEq] at h
        obtain ⟨-, husr⟩ := h
        rw [← husr]
        simp [roleOf]
  · intro db u? p? db' usr h
    unfold register at h
    simp only [] at h
    split at h
    · simp at h
    · split at h
      · simp at h
      · simp only [Except.ok.injEq, Prod.mk.injEq] at h
        obtain ⟨-, husr⟩ := h
        rw [← husr]
        simp [roleOf]

/-- C9 witness: registering "mallory" with role "admin" stores role "admin";
with role absent it stores "user". -/
theorem C9_witness :
    (∃ db' usr, register emptyDB (some "mallory") (some "pw") (some "admin") =
        .ok (db', usr) ∧ usr.role = "admin") ∧
    (∃ db' usr, register emptyDB (some "bob") (some "pw") none =
        .ok (db', usr) ∧ usr.role = "user") := by
  constructor
  · refine ⟨_, _, rfl, ?_⟩
    exact C9_register_role_verbatim.1 emptyDB (some "mallory") (some "pw")
      "admin" _ _ rfl (by decide)
  · refine ⟨_, _, rfl, ?_⟩
    exact C9_register_role_verbatim.2.1 emptyDB (some "bob") (some "pw") _ _ rfl

/-- C6: creating a recipe whose request carries only a (non-whitespace) title
produces a recipe record with the documented defaults: category "",
prepTime 0, image "", ingredients [], steps [], likes 0, author "",
rating 0. -/
theorem C6_create_title_only_defaults (db : DB) (title : String)
    (h : pstrip title ≠ "") :
    add_recipe db { title := some title } none =
      .ok ({ db with
             recipes := db.recipes ++
               [{ id := db.nextRecipeId, title := pstrip title, category := "",
                  prepTime := 0, image := "", ingredients := [], steps := [],
                  likes := 0, author := "", rating := 0 }],
             nextRecipeId := db.nextRecipeId + 1 },
           { id := db.nextRecipeId, title := pstrip title, category := "",
             prepTime := 0, image := "", ingredients := [], steps := [],
             likes := 0, author := "", rating := 0 }) := by
  unfold add_recipe
  simp only []
  have hts : getStrip (some title) = pstrip title := rfl
  rw [hts, if_neg h]
  rfl

/-- C6 witness: creating with only title "Soup" on the empty database. -/
theorem C6_witness :
    add_recipe emptyDB { title := some "Soup" } none =
      .ok ({ emptyDB with
             recipes := [{ id := 1, title := "Soup", category := "",
                           prepTime := 0, image := "", ingredients := [],
                           steps := [], likes := 0, author := "",
                           rating := 0 }],
             nextRecipeId := 2 },
           { id := 1, title := "Soup", category := "", prepTime := 0,
             image := "", ingredients := [], steps := [], likes := 0,
             author := "", rating := 0 }) := by
  have h := C6_create_title_only_defaults emptyDB "Soup" (by decide)
  have hs : pstrip "Soup" = "Soup" := by decide
  rw [hs] at h
  exact h

/-- C8: ToggleLike fails with NotFound when the username does not resolve to
a user (checked first, regardless of the recipe) or when the recipe id does
not resolve; no state is produced in those cases (the error carries no
database, mirroring the handler returning before any mutation).  On success
it returns the action taken ("liked" or "unliked") together with the
recipe's resulting likes counter. -/
theorem C8_toggle_notfound_and_result :
    (∀ db rid u?, db.users.find? (fun u => some u.username == u?) = none →
        like_recipe db rid u? = .error "User not found") ∧
    (∀ db rid u? user,
        db.users.find? (fun u => some u.username == u?) = some user →
        getRecipe db rid = none →
        like_recipe db rid u? = .error "Recipe not found") ∧
    (∀ db rid u? db' a n, like_recipe db rid u? = .ok (db', a, n) →
        (a = "liked" ∨ a = "unliked") ∧ likesOf db' rid = some n) := by
  refine ⟨?_, ?_, ?_⟩
  · intro db rid u? h
    unfold like_recipe
    rw [h]
  · intro db rid u? user h1 h2
    unfold getRecipe at h2
    unfold like_recipe
    rw [h1, h2]
  · intro db rid u? db' a n h
    unfold like_recipe at h
    cases hu : db.users.find? (fun u => some u.username == u?) with
    | none => rw [hu] at h; simp at h
    | some user =>
      rw [hu] at h
      cases hr : db.recipes.find? (fun r => r.id == rid) with
      | none => rw [hr] at h; simp at h
      | some recipe =>
        rw [hr] at h
        simp only [] at h
        have hid : recipe.id = rid := by
          have := List.find?_some hr
          simpa using this
        cases hl : db.likes.find?
            (fun l => l.user_id == user.id && l.recipe_id == recipe.id) with
        | some l0 =>
          rw [hl] at h
          simp only [Except.ok.injEq, Prod.mk.injEq] at h
          obtain ⟨hdb, ha, hn⟩ := h
          subst hdb; subst ha; subst hn
          refine ⟨Or.inr rfl, ?_⟩
          unfold likesOf getRecipe
          simp only []
          rw [hid]
          rw [find?_modifyFirst hr (by simp [hid])]
          rfl
        | none =>
          rw [hl] at h
          simp only [Except.ok.injEq, Prod.mk.injEq] at h
          obtain ⟨hdb, ha, hn⟩ := h
          subst hdb; subst ha; subst hn
          refine ⟨Or.inl rfl, ?_⟩
          unfold likesOf getRecipe
          simp only []
          rw [hid]
          rw [find?_modifyFirst hr (by simp [hid])]
          rfl

/-- C8 witness: on a database with only user "alice", toggling recipe 7 with
an unknown username fails with "User not found"; with "alice" and a missing
recipe it fails with "Recipe not found"; and a successful toggle on recipe 1
reports "liked" with the stored counter value. -/
theorem C8_witness :
    (like_recipe ⟨[⟨1, "alice", "pw", "user"⟩], [], [], 2, 1, 1⟩ 7
        (some "bob") = .error "User not found") ∧
    (like_recipe ⟨[⟨1, "alice", "pw", "user"⟩], [], [], 2, 1, 1⟩ 7
        (some "alice") = .error "Recipe not found") ∧
    (∀ db' a k, like_recipe
        ⟨[⟨1, "alice", "pw", "user"⟩],
         [⟨1, "Soup", "", 0, "", [], [], 0, "", 0⟩], [], 2, 2, 1⟩ 1
        (some "alice") = .ok (db', a, k) →
        (a = "liked" ∨ a = "unliked") ∧ likesOf db' 1 = some k) := by
  refine ⟨?_, ?_, ?_⟩
  · exact C8_toggle_notfound_and_result.1 _ 7 (some "bob") (by decide)
  · exact C8_toggle_notfound_and_result.2.1 _ 7 (some "alice")
      ⟨1, "alice", "pw", "user"⟩ (by decide) (by decide)
  · intro db' a k h
    exact C8_toggle_notfound_and_result.2.2 _ 1 (some "alice") db' a k h

-- -------------------- shape lemmas for the operations --------------------

theorem applyTitle_shape {v? : Option Json} {r r' : RecipeR}
    (h : applyTitle v? r = some r') : ∃ t, r' = { r with title := t } := by
  cases v? with
  | none =>
    simp only [applyTitle, Option.some.injEq] at h
    exact ⟨r.title, by rw [← h]⟩
  | some v =>
    simp only [applyTitle, Option.map_eq_some'] at h
    obtain ⟨t, -, ht⟩ := h
    by_cases he : t = ""
    · refine ⟨r.title, ?_⟩
      rw [← ht, he]
      simp
    · rw [if_neg he] at ht
      exact ⟨t, ht.symm⟩

theorem applyCategory_shape {v? : Option Json} {r r' : RecipeR}
    (h : applyCategory v? r = some r') : ∃ c, r' = { r with category := c } := by
  cases v? with
  | none =>
    simp only [applyCategory, Option.some.injEq] at h
    exact ⟨r.category, by rw [← h]⟩
  | some v =>
    simp only [applyCategory, Option.map_eq_some'] at h
    obtain ⟨c, -, hc⟩ := h
    exact ⟨c, hc.symm⟩

theorem applyImage_shape {v? : Option Json} {r r' : RecipeR}
    (h : applyImage v? r = some r') : ∃ i, r' = { r with image := i } := by
  cases v? with
  | none =>
    simp only [applyImage, Option.some.injEq] at h
    exact ⟨r.image, by rw [← h]⟩
  | some v =>
    simp only [applyImage, Option.map_eq_some'] at h
    obtain ⟨i, -, hi⟩ := h
    exact ⟨i, hi.symm⟩

theorem applyPrepTime_shape (v? : Option Json) (r : RecipeR) :
    ∃ n, applyPrepTime v? r = { r with prepTime := n } := by
  cases v? with
  | none => exact ⟨r.prepTime, rfl⟩
  | some v =>
    cases hv : pyIntOf v with
    | none => exact ⟨r.prepTime, by simp [applyPrepTime, hv]⟩
    | some n => exact ⟨n, by simp [applyPrepTime, hv]⟩

theorem applyIngredients_shape (v? : Option Json) (r : RecipeR) :
    ∃ g, applyIngredients v? r = { r with ingredients := g } := by
  cases v? with
  | none => exact ⟨r.ingredients, rfl⟩
  | some v => exact ⟨parse_list_field (some v), rfl⟩

theorem applySteps_shape (v? : Option Json) (r : RecipeR) :
    ∃ st, applySteps v? r = { r with steps := st } := by
  cases v? with
  | none => exact ⟨r.steps, rfl⟩
  | some v => exact ⟨parse_list_field (some v), rfl⟩

theorem applyRating_shape (v? : Option Json) (r : RecipeR) :
    ∃ ra, applyRating v? r = { r with rating := ra } := by
  cases v? with
  | none => exact ⟨r.rating, rfl⟩
  | some v =>
    cases hv : pyIntOf v with
    | none => exact ⟨0, by simp [applyRating, hv]⟩
    | some n => exact ⟨n, by simp [applyRating, hv]⟩

/-- Any successful run of the seven updates only replaces the seven mutable
fields: id, likes and author are untouched, and the result decomposes into
the sequential intermediate states. -/
theorem applyUpdates_shape {body : UpdateBody} {r0 r' : RecipeR}
    (h : applyUpdates body r0 = some r') :
    ∃ t c n i g st ra,
      r' = { r0 with title := t, category := c, prepTime := n, image := i,
                     ingredients := g, steps := st, rating := ra } := by
  unfold applyUpdates at h
  rcases Option.map_eq_some'.mp h with ⟨r4, hD, hr'⟩
  rcases Option.bind_eq_some.mp hD with ⟨r3, hC, hImg⟩
  rcases Option.map_eq_some'.mp hC with ⟨r2, hB, hr3⟩
  rcases Option.bind_eq_some.mp hB with ⟨r1, hT, hCat⟩
  obtain ⟨t, rfl⟩ := applyTitle_shape hT
  obtain ⟨c, rfl⟩ := applyCategory_shape hCat
  obtain ⟨n, hn⟩ := applyPrepTime_shape body.prepTime { r0 with title := t, category := c }
  rw [hn] at hr3
  subst hr3
  obtain ⟨i, rfl⟩ := applyImage_shape hImg
  obtain ⟨g, hg⟩ := applyIngredients_shape body.ingredients
    { r0 with title := t, category := c, prepTime := n, image := i }
  obtain ⟨st, hst⟩ := applySteps_shape body.steps
    { r0 with title := t, category := c, prepTime := n, image := i,
              ingredients := g }
  obtain ⟨ra, hra⟩ := applyRating_shape body.rating
    { r0 with title := t, category := c, prepTime := n, image := i,
              ingredients := g, steps := st }
  rw [hg, hst, hra] at hr'
  exact ⟨t, c, n, i, g, st, ra, hr'.symm⟩

-- value lemmas for the individual updates

theorem applyTitle_none (r : RecipeR) : applyTitle none r = some r := rfl

theorem applyTitle_empty {v : Json} (r : RecipeR) (hv : pyStrStrip v = some "") :
    applyTitle (some v) r = some r := by
  simp [applyTitle, hv]

theorem applyTitle_val {v : Json} {t : String} (r : RecipeR)
    (hv : pyStrStrip v = some t) (ht : t ≠ "") :
    applyTitle (some v) r = some { r with title := t } := by
  simp [applyTitle, hv, ht]

theorem applyCategory_none (r : RecipeR) : applyCategory none r = some r := rfl

theorem applyCategory_val {v : Json} {c : String} (r : RecipeR)
    (hv : pyStrStrip v = some c) :
    applyCategory (some v) r = some { r with category := c } := by
  simp [applyCategory, hv]

theorem applyImage_none (r : RecipeR) : applyImage none r = some r := rfl

theorem applyImage_val {v : Json} {i : String} (r : RecipeR)
    (hv : pyStrStrip v = some i) :
    applyImage (some v) r = some { r with image := i } := by
  simp [applyImage, hv]

theorem applyPrepTime_none (r : RecipeR) : applyPrepTime none r = r := rfl

theorem applyPrepTime_fail {v : Json} (r : RecipeR) (hv : pyIntOf v = none) :
    applyPrepTime (some v) r = r := by
  simp [applyPrepTime, hv]

theorem applyIngredients_none (r : RecipeR) : applyIngredients none r = r := rfl

theorem applySteps_none (r : RecipeR) : applySteps none r = r := rfl

theorem applyRating_none (r : RecipeR) : applyRating none r = r := rfl

theorem applyRating_fail {v : Json} (r : RecipeR) (hv : pyIntOf v = none) :
    applyRating (some v) r = { r with rating := 0 } := by
  simp [applyRating, hv]

-- result shapes of the three mutating handlers

/-- A successful create appends exactly one row built from the form. -/
theorem add_recipe_ok_shape {db : DB} {form : Form} {file : Option Upload}
    {db' : DB} {rr : RecipeR} (h : add_recipe db form file = .ok (db', rr)) :
    db' = { db with recipes := db.recipes ++ [rr],
                    nextRecipeId := db.nextRecipeId + 1 } ∧
    rr.id = db.nextRecipeId ∧ rr.likes = getInt0 form.likes ∧
    rr.title = getStrip form.title ∧ rr.prepTime = getInt0 form.prepTime ∧
    rr.rating = getInt0 form.rating ∧ rr.category = getStrip form.category ∧
    rr.author = getStrip form.author ∧
    rr.ingredients = parse_list_field (form.ingredients.map Json.str) ∧
    rr.steps = parse_list_field (form.steps.map Json.str) := by
  unfold add_recipe at h
  simp only [] at h
  split at h
  · simp at h
  · rcases file with - | f
    · simp only [Except.ok.injEq, Prod.mk.injEq] at h
      obtain ⟨hdb, hrr⟩ := h
      subst hrr
      exact ⟨hdb.symm, rfl, rfl, rfl, rfl, rfl, rfl, rfl, rfl, rfl⟩
    · simp only [] at h
      split at h
      · split at h
        · simp at h
        · simp only [Except.ok.injEq, Prod.mk.injEq] at h
          obtain ⟨hdb, hrr⟩ := h
          subst hrr
          exact ⟨hdb.symm, rfl, rfl, rfl, rfl, rfl, rfl, rfl, rfl, rfl⟩
      · simp only [Except.ok.injEq, Prod.mk.injEq] at h
        obtain ⟨hdb, hrr⟩ := h
        subst hrr
        exact ⟨hdb.symm, rfl, rfl, rfl, rfl, rfl, rfl, rfl, rfl, rfl⟩

/-- A successful update rewrites exactly the first recipe with the given id
by a successful run of the seven field updates. -/
theorem edit_recipe_ok_shape {db : DB} {rid : Nat} {body : UpdateBody}
    {db' : DB} (h : edit_recipe db rid body = .ok db') :
    ∃ r0 r', db.recipes.find? (fun r => r.id == rid) = some r0 ∧
      applyUpdates body r0 = some r' ∧
      db' = { db with
              recipes := modifyFirst (fun r => r.id == rid) (fun _ => r')
                db.recipes } := by
  unfold edit_recipe at h
  cases hf : db.recipes.find? (fun r => r.id == rid) with
  | none => rw [hf] at h; simp at h
  | some r0 =>
    rw [hf] at h
    simp only [] at h
    cases ha : applyUpdates body r0 with
    | none => rw [ha] at h; simp at h
    | some r' =>
      rw [ha] at h
      simp only [Except.ok.injEq] at h
      exact ⟨r0, r', rfl, ha, h.symm⟩

/-- A successful delete removes exactly the first recipe with the given id
(possible only when no Like row references it), leaving the other tables
unchanged. -/
theorem delete_recipe_ok_shape {db : DB} {rid : Nat} {db' : DB}
    (h : delete_recipe db rid = .ok db') :
    db' = { db with
            recipes := eraseFirst (fun r2 => r2.id == rid) db.recipes } := by
  unfold delete_recipe at h
  cases hf : db.recipes.find? (fun r => r.id == rid) with
  | none => rw [hf] at h; simp at h
  | some r =>
    rw [hf] at h
    simp only [] at h
    split at h
    · simp at h
    · simp only [Except.ok.injEq] at h
      exact h.symm

/-- A successful toggle resolves the user and recipe, flips the Like-row
state for the pair, and stores the reported counter on the first recipe with
that id. -/
theorem like_recipe_ok_shape {db : DB} {rid : Nat} {u? : Option String}
    {db' : DB} {a : String} {n : Int}
    (h : like_recipe db rid u? = .ok (db', a, n)) :
    ∃ user recipe,
      db.users.find? (fun u => some u.username == u?) = some user ∧
      db.recipes.find? (fun r => r.id == rid) = some recipe ∧
      ((∃ l0, db.likes.find?
            (fun l => l.user_id == user.id && l.recipe_id == recipe.id) =
              some l0 ∧
          a = "unliked" ∧ n = max 0 (recipe.likes - 1) ∧
          db' = { db with
                  likes := eraseFirst
                    (fun l => l.user_id == user.id && l.recipe_id == recipe.id)
                    db.likes,
                  recipes := modifyFirst (fun r => r.id == recipe.id)
                    (fun r => { r with likes := n }) db.recipes }) ∨
        (db.likes.find?
            (fun l => l.user_id == user.id && l.recipe_id == recipe.id) =
              none ∧
          a = "liked" ∧ n = recipe.likes + 1 ∧
          db' = { db with
                  likes := db.likes ++ [⟨db.nextLikeId, user.id, recipe.id⟩],
                  nextLikeId := db.nextLikeId + 1,
                  recipes := modifyFirst (fun r => r.id == recipe.id)
                    (fun r => { r with likes := n }) db.recipes })) := by
  unfold like_recipe at h
  cases hu : db.users.find? (fun u => some u.username == u?) with
  | none => rw [hu] at h; simp at h
  | some user =>
    rw [hu] at h
    cases hr : db.recipes.find? (fun r => r.id == rid) with
    | none => rw [hr] at h; simp at h
    | some recipe =>
      rw [hr] at h
      simp only [] at h
      refine ⟨user, recipe, rfl, rfl, ?_⟩
      cases hl : db.likes.find?
          (fun l => l.user_id == user.id && l.recipe_id == recipe.id) with
      | some l0 =>
        rw [hl] at h
        simp only [Except.ok.injEq, Prod.mk.injEq] at h
        obtain ⟨hdb, ha, hn⟩ := h
        exact Or.inl ⟨l0, rfl, ha.symm, hn.symm, by rw [← hdb, hn]⟩
      | none =>
        rw [hl] at h
        simp only [Except.ok.injEq, Prod.mk.injEq] at h
        obtain ⟨hdb, ha, hn⟩ := h
        exact Or.inr ⟨rfl, ha.symm, hn.symm, by rw [← hdb, hn]⟩

/-- C7: recipe update is partial — only fields present in the request body
are mutated (absent fields, and the never-updated id, likes and author
columns, keep their prior values); a present-but-unparsable prepTime is
silently ignored (prepTime keeps its prior value); a present-but-unparsable
rating resets rating to 0; and updating a nonexistent recipe id fails with
NotFound, producing no new state (the error carries no database, mirroring
the handler returning before any mutation). -/
theorem C7_update_partial_semantics :
    (∀ db rid body, getRecipe db rid = none →
        edit_recipe db rid body = .error "Recipe not found") ∧
    (∀ db rid body db' r0, edit_recipe db rid body = .ok db' →
        getRecipe db rid = some r0 →
        ∃ r', getRecipe db' rid = some r' ∧
          db'.users = db.users ∧ db'.likes = db.likes ∧
          r'.id = r0.id ∧ r'.likes = r0.likes ∧ r'.author = r0.author ∧
          (body.title = none → r'.title = r0.title) ∧
          (body.category = none → r'.category = r0.category) ∧
          (body.prepTime = none → r'.prepTime = r0.prepTime) ∧
          (body.image = none → r'.image = r0.image) ∧
          (body.ingredients = none → r'.ingredients = r0.ingredients) ∧
          (body.steps = none → r'.steps = r0.steps) ∧
          (body.rating = none → r'.rating = r0.rating) ∧
          (∀ v, body.prepTime = some v → pyIntOf v = none →
            r'.prepTime = r0.prepTime) ∧
          (∀ v, body.rating = some v → pyIntOf v = none → r'.rating = 0)) := by
  constructor
  · intro db rid body h
    unfold getRecipe at h
    unfold edit_recipe
    rw [h]
  · intro db rid body db' r0 h hr0
    obtain ⟨r0', r', hf, happ, hdbeq⟩ := edit_recipe_ok_shape h
    unfold getRecipe at hr0
    rw [hf] at hr0
    have : r0 = r0' := (Option.some.inj hr0).symm
    subst this
    have hid0 : (r0.id == rid) = true := by simpa using List.find?_some hf
    unfold applyUpdates at happ
    rcases Option.map_eq_some'.mp happ with ⟨r4, hD, hr'⟩
    rcases Option.bind_eq_some.mp hD with ⟨r3, hC, hImg⟩
    rcases Option.map_eq_some'.mp hC with ⟨r2, hB, hr3⟩
    rcases Option.bind_eq_some.mp hB with ⟨r1, hT, hCat⟩
    obtain ⟨t, rfl⟩ := applyTitle_shape hT
    obtain ⟨c, rfl⟩ := applyCategory_shape hCat
    obtain ⟨n, hn⟩ := applyPrepTime_shape body.prepTime
      { r0 with title := t, category := c }
    rw [hn] at hr3
    subst hr3
    obtain ⟨i, rfl⟩ := applyImage_shape hImg
    obtain ⟨g, hg⟩ := applyIngredients_shape body.ingredients
      { r0 with title := t, category := c, prepTime := n, image := i }
    obtain ⟨st, hst⟩ := applySteps_shape body.steps
      { r0 with title := t, category := c, prepTime := n, image := i,
                ingredients := g }
    obtain ⟨ra, hra⟩ := applyRating_shape body.rating
      { r0 with title := t, category := c, prepTime := n, image := i,
                ingredients := g, steps := st }
    rw [hg, hst, hra] at hr'
    subst hr'
    refine ⟨⟨r0.id, t, c, n, i, g, st, r0.likes, r0.author, ra⟩,
      ?_, ?_, ?_, rfl, rfl, rfl, ?_, ?_, ?_, ?_, ?_, ?_, ?_, ?_, ?_⟩
    · rw [hdbeq]
      unfold getRecipe
      exact find?_modifyFirst hf hid0
    · rw [hdbeq]
    · rw [hdbeq]
    · intro hb
      rw [hb, applyTitle_none] at hT
      exact (congrArg RecipeR.title (Option.some.inj hT)).symm
    · intro hb
      rw [hb, applyCategory_none] at hCat
      exact (congrArg RecipeR.category (Option.some.inj hCat)).symm
    · intro hb
      rw [hb, applyPrepTime_none] at hn
      exact (congrArg RecipeR.prepTime hn).symm
    · intro hb
      rw [hb, applyImage_none] at hImg
      exact (congrArg RecipeR.image (Option.some.inj hImg)).symm
    · intro hb
      rw [hb, applyIngredients_none] at hg
      exact (congrArg RecipeR.ingredients hg).symm
    · intro hb
      rw [hb, applySteps_none] at hst
      exact (congrArg RecipeR.steps hst).symm
    · intro hb
      rw [hb, applyRating_none] at hra
      exact (congrArg RecipeR.rating hra).symm
    · intro v hv hvi
      rw [hv, applyPrepTime_fail _ hvi] at hn
      exact (congrArg RecipeR.prepTime hn).symm
    · intro v hv hvi
      rw [hv, applyRating_fail _ hvi] at hra
      exact (congrArg RecipeR.rating hra).symm

/-- The concrete update scenario used by the C7 witness. -/
def dbC7 : DB := ⟨[], [⟨1, "Soup", "", 5, "", [], [], 0, "", 4⟩], [], 1, 2, 1⟩

def bodyC7 : UpdateBody :=
  { prepTime := some (Json.str "abc"), rating := some (Json.str "xyz") }

def dbC7' : DB := ⟨[], [⟨1, "Soup", "", 5, "", [], [], 0, "", 0⟩], [], 1, 2, 1⟩

/-- C7 witness: updating a missing id 9 fails with NotFound; updating recipe
1 with unparsable prepTime "abc" and rating "xyz" keeps prepTime 5 and resets
rating to 0. -/
theorem C7_witness :
    (edit_recipe (⟨[], [], [], 1, 1, 1⟩ : DB) 9
        ⟨none, none, none, none, none, none, none⟩ =
      .error "Recipe not found") ∧
    edit_recipe dbC7 1 bodyC7 = .ok dbC7' ∧
    (∃ r', getRecipe dbC7' 1 = some r' ∧ r'.prepTime = 5 ∧ r'.rating = 0) := by
  refine ⟨?_, by rfl, ?_⟩
  · exact C7_update_partial_semantics.1 _ 9 _ (by decide)
  · obtain ⟨r', hfind, -, -, -, -, -, -, -, -, -, -, -, -, hprep, hrat⟩ :=
      C7_update_partial_semantics.2 dbC7 1 bodyC7 dbC7'
        ⟨1, "Soup", "", 5, "", [], [], 0, "", 4⟩ (by rfl) (by rfl)
    exact ⟨r', hfind, hprep _ rfl (by decide), hrat _ rfl (by decide)⟩

/-- C10: updating with a title field that is present but empty or
whitespace-only (it strips to "") leaves the title unchanged, while an empty
category or image update clears those fields to ""; all fields not named in
the request stay unchanged, as do id, likes and author. -/
theorem C10_empty_title_update_kept :
    ∀ db rid body db' r0,
      edit_recipe db rid body = .ok db' →
      getRecipe db rid = some r0 →
      ∃ r', getRecipe db' rid = some r' ∧
        (∀ v, body.title = some v → pyStrStrip v = some "" →
          r'.title = r0.title) ∧
        (∀ v, body.category = some v → pyStrStrip v = some "" →
          r'.category = "") ∧
        (∀ v, body.image = some v → pyStrStrip v = some "" →
          r'.image = "") ∧
        r'.id = r0.id ∧ r'.likes = r0.likes ∧ r'.author = r0.author ∧
        (body.title = none → r'.title = r0.title) ∧
        (body.category = none → r'.category = r0.category) ∧
        (body.prepTime = none → r'.prepTime = r0.prepTime) ∧
        (body.image = none → r'.image = r0.image) ∧
        (body.ingredients = none → r'.ingredients = r0.ingredients) ∧
        (body.steps = none → r'.steps = r0.steps) ∧
        (body.rating = none → r'.rating = r0.rating) := by
  intro db rid body db' r0 h hr0
  obtain ⟨r0', r', hf, happ, hdbeq⟩ := edit_recipe_ok_shape h
  unfold getRecipe at hr0
  rw [hf] at hr0
  have : r0 = r0' := (Option.some.inj hr0).symm
  subst this
  have hid0 : (r0.id == rid) = true := by simpa using List.find?_some hf
  unfold applyUpdates at happ
  rcases Option.map_eq_some'.mp happ with ⟨r4, hD, hr'⟩
  rcases Option.bind_eq_some.mp hD with ⟨r3, hC, hImg⟩
  rcases Option.map_eq_some'.mp hC with ⟨r2, hB, hr3⟩
  rcases Option.bind_eq_some.mp hB with ⟨r1, hT, hCat⟩
  obtain ⟨t, rfl⟩ := applyTitle_shape hT
  obtain ⟨c, rfl⟩ := applyCategory_shape hCat
  obtain ⟨n, hn⟩ := applyPrepTime_shape body.prepTime
    { r0 with title := t, category := c }
  rw [hn] at hr3
  subst hr3
  obtain ⟨i, rfl⟩ := applyImage_shape hImg
  obtain ⟨g, hg⟩ := applyIngredients_shape body.ingredients
    { r0 with title := t, category := c, prepTime := n, image := i }
  obtain ⟨st, hst⟩ := applySteps_shape body.steps
    { r0 with title := t, category := c, prepTime := n, image := i,
              ingredients := g }
  obtain ⟨ra, hra⟩ := applyRating_shape body.rating
    { r0 with title := t, category := c, prepTime := n, image := i,
              ingredients := g, steps := st }
  rw [hg, hst, hra] at hr'
  subst hr'
  refine ⟨⟨r0.id, t, c, n, i, g, st, r0.likes, r0.author, ra⟩,
    ?_, ?_, ?_, ?_, rfl, rfl, rfl, ?_, ?_, ?_, ?_, ?_, ?_, ?_⟩
  · rw [hdbeq]
    unfold getRecipe
    exact find?_modifyFirst hf hid0
  · intro v hv hvv
    rw [hv, applyTitle_empty _ hvv] at hT
    exact (congrArg RecipeR.title (Option.some.inj hT)).symm
  · intro v hv hvv
    rw [hv, applyCategory_val _ hvv] at hCat
    exact (congrArg RecipeR.category (Option.some.inj hCat)).symm
  · intro v hv hvv
    rw [hv, applyImage_val _ hvv] at hImg
    exact (congrArg RecipeR.image (Option.some.inj hImg)).symm
  · intro hb
    rw [hb, applyTitle_none] at hT
    exact (congrArg RecipeR.title (Option.some.inj hT)).symm
  · intro hb
    rw [hb, applyCategory_none] at hCat
    exact (congrArg RecipeR.category (Option.some.inj hCat)).symm
  · intro hb
    rw [hb, applyPrepTime_none] at hn
    exact (congrArg RecipeR.prepTime hn).symm
  · intro hb
    rw [hb, applyImage_none] at hImg
    exact (congrArg RecipeR.image (Option.some.inj hImg)).symm
  · intro hb
    rw [hb, applyIngredients_none] at hg
    exact (congrArg RecipeR.ingredients hg).symm
  · intro hb
    rw [hb, applySteps_none] at hst
    exact (congrArg RecipeR.steps hst).symm
  · intro hb
    rw [hb, applyRating_none] at hra
    exact (congrArg RecipeR.rating hra).symm

/-- The concrete update scenario used by the C10 witness. -/
def dbC10 : DB :=
  ⟨[], [⟨1, "Soup", "Veg", 5, "x.png", [], [], 0, "", 4⟩], [], 1, 2, 1⟩

def bodyC10 : UpdateBody :=
  { title := some (Json.str "   "), category := some (Json.str ""),
    image := some (Json.str " ") }

def dbC10' : DB :=
  ⟨[], [⟨1, "Soup", "", 5, "", [], [], 0, "", 4⟩], [], 1, 2, 1⟩

/-- C10 witness: a whitespace-only title update keeps title "Soup", while
empty category and image updates clear both to "", and prepTime/rating are
untouched. -/
theorem C10_witness :
    edit_recipe dbC10 1 bodyC10 = .ok dbC10' ∧
    (∃ r', getRecipe dbC10' 1 = some r' ∧ r'.title = "Soup" ∧
      r'.category = "" ∧ r'.image = "" ∧ r'.prepTime = 5 ∧ r'.rating = 4) := by
  refine ⟨by rfl, ?_⟩
  obtain ⟨r', hfind, htitle, hcat, himg, -, -, -, -, -, hprep, -, -, -, hrat⟩ :=
    C10_empty_title_update_kept dbC10 1 bodyC10 dbC10'
      ⟨1, "Soup", "Veg", 5, "x.png", [], [], 0, "", 4⟩ (by rfl) (by rfl)
  exact ⟨r', hfind, htitle _ rfl (by decide), hcat _ rfl (by decide),
    himg _ rfl (by decide), hprep rfl, hrat rfl⟩

instance likesNonneg.decidable (db : DB) : Decidable (likesNonneg db) := by
  unfold likesNonneg; infer_instance

instance likesSync.decidable (db : DB) : Decidable (likesSync db) := by
  unfold likesSync; infer_instance

instance likeUnique.decidable (db : DB) : Decidable (likeUnique db) := by
  unfold likeUnique pairCount; infer_instance

/-- C3 counterexample: the claim "recipe creation preserves likes ≥ 0" is
false — creating a recipe with form field likes="-1" on the empty database
(which trivially satisfies likes ≥ 0) succeeds and stores a recipe whose
likes counter is -1. -/
theorem C3_counterexample :
    likesNonneg emptyDB ∧
    (add_recipe emptyDB { title := some "Soup", likes := some "-1" }
        none).toOption.map (fun p => p.2.likes) = some (-1) ∧
    (add_recipe emptyDB { title := some "Soup", likes := some "-1" }
        none).toOption.map (fun p => decide (likesNonneg p.1)) = some false := by
  refine ⟨?_, by decide, by decide⟩
  intro r hr
  simp [emptyDB] at hr

/-- C3 (amended): recipe update and toggle-like always preserve nonnegative
likes counters (the toggle decrement floors at zero), and recipe creation
preserves them exactly when the supplied likes form value parses to a
nonnegative integer — in particular when the field is absent or empty; a
negative client-supplied likes value creates a negative counter. -/
theorem C3_amended_likes_nonneg :
    (∀ db form file db' rr, likesNonneg db → 0 ≤ getInt0 form.likes →
        add_recipe db form file = .ok (db', rr) → likesNonneg db') ∧
    (∀ db rid body db', likesNonneg db → edit_recipe db rid body = .ok db' →
        likesNonneg db') ∧
    (∀ db rid u? db' a n, likesNonneg db →
        like_recipe db rid u? = .ok (db', a, n) → likesNonneg db') := by
  refine ⟨?_, ?_, ?_⟩
  · intro db form file db' rr hnn hge h
    obtain ⟨hdb, -, hlikes, -⟩ := add_recipe_ok_shape h
    subst hdb
    intro r hr
    rcases List.mem_append.mp hr with hold | hnew
    · exact hnn r hold
    · have : r = rr := by simpa using hnew
      subst this
      rw [hlikes]
      exact hge
  · intro db rid body db' hnn h
    obtain ⟨r0, r', hf, happ, hdb⟩ := edit_recipe_ok_shape h
    subst hdb
    obtain ⟨t, c, n, i, g, st, ra, rfl⟩ := applyUpdates_shape happ
    intro r hr
    rcases mem_modifyFirst hr with hold | ⟨y, hy, rfl⟩
    · exact hnn r hold
    · exact hnn r0 (List.mem_of_find?_eq_some hf)
  · intro db rid u? db' a n hnn h
    obtain ⟨user, recipe, -, hr, hcase⟩ := like_recipe_ok_shape h
    have hrec : recipe ∈ db.recipes := List.mem_of_find?_eq_some hr
    rcases hcase with ⟨l0, -, -, hn, hdb⟩ | ⟨-, -, hn, hdb⟩ <;> subst hdb <;>
      intro r hrm <;> rcases mem_modifyFirst hrm with hold | ⟨y, hy, rfl⟩
    · exact hnn r hold
    · show (0 : Int) ≤ n
      rw [hn]
      exact le_max_left 0 _
    · exact hnn r hold
    · show (0 : Int) ≤ n
      rw [hn]
      have := hnn recipe hrec
      omega

/-- C3 witness: creating "Soup" with likes="2" from the empty database keeps
every counter nonnegative. -/
theorem C3_witness :
    likesNonneg (⟨[], [⟨1, "Soup", "", 0, "", [], [], 2, "", 0⟩], [],
      1, 2, 1⟩ : DB) :=
  C3_amended_likes_nonneg.1 emptyDB { title := some "Soup", likes := some "2" }
    none _ ⟨1, "Soup", "", 0, "", [], [], 2, "", 0⟩
    (by intro r hr; simp [emptyDB] at hr) (by decide) (by rfl)


/-- Structural well-formedness the database engine guarantees: recipe
primary keys are unique and below the autoincrement counter, and every Like
row's recipe foreign key references an existing recipe (enforced by
Postgres). -/
def dbWF (db : DB) : Prop :=
  (db.recipes.map (fun r => r.id)).Nodup ∧
  (∀ r ∈ db.recipes, r.id < db.nextRecipeId) ∧
  (∀ l ∈ db.likes, ∃ r ∈ db.recipes, r.id = l.recipe_id)

instance dbWF.decidable (db : DB) : Decidable (dbWF db) := by
  unfold dbWF; infer_instance

theorem length_filter_middle (q : α → Bool) (m1 m2 : List α) (x : α) :
    ((m1 ++ x :: m2).filter q).length =
      ((m1 ++ m2).filter q).length + (if q x then 1 else 0) := by
  simp only [List.filter_append, List.filter_cons, List.length_append]
  split
  · simp only [List.length_cons]
    omega
  · simp

/-- C2 counterexample: the claim fails after recipe creation — creating
"Soup" with form field likes="5" from the empty (trivially synchronized)
database succeeds and yields a state whose stored counter is 5 while no Like
row references the recipe. -/
theorem C2_counterexample :
    likesSync emptyDB ∧
    (add_recipe emptyDB { title := some "Soup", likes := some "5" }
        none).toOption.map (fun p => decide (likesSync p.1)) = some false := by
  refine ⟨?_, by decide⟩
  intro r hr
  simp [emptyDB] at hr

/-- C2 (amended): on well-formed states, recipe update, recipe delete and
toggle-like preserve the invariant "every recipe's likes counter equals the
number of Like rows referencing it"; recipe creation preserves it exactly
when the request's likes field is absent or parses to 0 — a nonzero
client-supplied likes value breaks the equality (see the counterexample). -/
theorem C2_amended_likes_sync :
    (∀ db form file db' rr, dbWF db → likesSync db → getInt0 form.likes = 0 →
        add_recipe db form file = .ok (db', rr) → likesSync db') ∧
    (∀ db rid body db', likesSync db → edit_recipe db rid body = .ok db' →
        likesSync db') ∧
    (∀ db rid db', likesSync db → delete_recipe db rid = .ok db' →
        likesSync db') ∧
    (∀ db rid u? db' a n, dbWF db → likesSync db →
        like_recipe db rid u? = .ok (db', a, n) → likesSync db') := by
  refine ⟨?_, ?_, ?_, ?_⟩
  · -- create
    intro db form file db' rr hwf hsync h0 h
    obtain ⟨hdb, hid, hlikes, -⟩ := add_recipe_ok_shape h
    subst hdb
    intro r hr
    rcases List.mem_append.mp hr with hold | hnew
    · exact hsync r hold
    · have : r = rr := by simpa using hnew
      subst this
      rw [hlikes, h0]
      have hz : likeCount db r.id = 0 := by
        unfold likeCount
        rw [List.length_eq_zero]
        apply List.filter_eq_nil_iff.mpr
        intro l hl
        obtain ⟨rx, hrx, hxid⟩ := hwf.2.2 l hl
        have hlt := hwf.2.1 rx hrx
        rw [hid]
        simp only [beq_iff_eq]
        omega
      show (0 : Int) = (likeCount db r.id : Int)
      rw [hz]
      rfl
  · -- update
    intro db rid body db' hsync h
    obtain ⟨r0, r', hf, happ, hdb⟩ := edit_recipe_ok_shape h
    subst hdb
    obtain ⟨t, c, n, i, g, st, ra, rfl⟩ := applyUpdates_shape happ
    intro r hr
    rcases mem_modifyFirst hr with hold | ⟨y, hy, rfl⟩
    · exact hsync r hold
    · exact hsync r0 (List.mem_of_find?_eq_some hf)
  · -- delete
    intro db rid db' hsync h
    have hdb := delete_recipe_ok_shape h
    subst hdb
    intro r hr
    exact hsync r (mem_eraseFirst hr)
  · -- toggle
    intro db rid u? db' a n hwf hsync h
    obtain ⟨user, recipe, hu, hr, hcase⟩ := like_recipe_ok_shape h
    have hrid : recipe.id = rid := by simpa using List.find?_some hr
    rw [← hrid] at hr
    obtain ⟨l1, l2, hsplit, hpre1, hmod, -⟩ :=
      modifyFirst_decomp (fun r => { r with likes := n }) hr
    have hnd := hwf.1
    rw [hsplit, List.map_append, List.map_cons] at hnd
    have hnotin : recipe.id ∉
        l1.map (fun r => r.id) ++ l2.map (fun r => r.id) :=
      (List.nodup_cons.mp (List.nodup_middle.mp hnd)).1
    have hl1ne : ∀ y ∈ l1, y.id ≠ recipe.id := by
      intro y hy he
      exact absurd (List.mem_append_left _ (he ▸ List.mem_map_of_mem _ hy))
        hnotin
    have hl2ne : ∀ y ∈ l2, y.id ≠ recipe.id := by
      intro y hy he
      exact absurd (List.mem_append_right _ (he ▸ List.mem_map_of_mem _ hy))
        hnotin
    have hsyncrec := hsync recipe (List.mem_of_find?_eq_some hr)
    have hmeml1 : ∀ y ∈ l1, y ∈ db.recipes := by
      intro y hy
      rw [hsplit]
      exact List.mem_append_left _ hy
    have hmeml2 : ∀ y ∈ l2, y ∈ db.recipes := by
      intro y hy
      rw [hsplit]
      exact List.mem_append_right _ (List.mem_cons_of_mem _ hy)
    rcases hcase with ⟨l0, hfl, -, hn, hdb⟩ | ⟨hfl, -, hn, hdb⟩
    · -- unlike: one row for the pair is deleted, the counter drops by one
      have hql0 : (l0.recipe_id == recipe.id) = true := by
        have := List.find?_some hfl
        simp only [Bool.and_eq_true] at this
        exact this.2
      obtain ⟨m1, m2, hlsplit, -, herase, -⟩ := eraseFirst_decomp hfl
      have hcount : ∀ x : Nat, likeCount db x =
          ((m1 ++ m2).filter (fun l => l.recipe_id == x)).length +
            (if (l0.recipe_id == x) then 1 else 0) := by
        intro x
        unfold likeCount
        rw [hlsplit]
        exact length_filter_middle _ m1 m2 l0
      subst hdb
      intro r hrm
      simp only [] at hrm
      rw [hmod] at hrm
      show r.likes =
        ((eraseFirst
            (fun l => l.user_id == user.id && l.recipe_id == recipe.id)
            db.likes).filter (fun l => l.recipe_id == r.id)).length
      rw [herase]
      rcases List.mem_append.mp hrm with h1 | h2
      · have hne : (l0.recipe_id == r.id) = false := by
          simp only [beq_iff_eq, beq_eq_false_iff_ne, ne_eq]
          rw [(by simpa using hql0 : l0.recipe_id = recipe.id)]
          exact fun he => hl1ne r h1 he.symm
        have hc := hcount r.id
        rw [hne, if_neg (by simp)] at hc
        rw [hsync r (hmeml1 r h1), hc]
        simp
      · rcases List.mem_cons.mp h2 with rfl | h3
        · have hc := hcount recipe.id
          rw [hql0, if_pos rfl] at hc
          show n = (((m1 ++ m2).filter
            (fun l => l.recipe_id == recipe.id)).length : Int)
          rw [hn, hsyncrec, hc]
          push_cast
          omega
        · have hne : (l0.recipe_id == r.id) = false := by
            simp only [beq_iff_eq, beq_eq_false_iff_ne, ne_eq]
            rw [(by simpa using hql0 : l0.recipe_id = recipe.id)]
            exact fun he => hl2ne r h3 he.symm
          have hc := hcount r.id
          rw [hne, if_neg (by simp)] at hc
          rw [hsync r (hmeml2 r h3), hc]
          simp
    · -- like: one row for the pair is appended, the counter grows by one
      have hcount : ∀ x : Nat,
          ((db.likes ++ [(⟨db.nextLikeId, user.id, recipe.id⟩ : LikeR)]).filter
              (fun l => l.recipe_id == x)).length =
            likeCount db x + (if (recipe.id == x) then 1 else 0) := by
        intro x
        unfold likeCount
        have := length_filter_middle (fun l => l.recipe_id == x) db.likes []
          (⟨db.nextLikeId, user.id, recipe.id⟩ : LikeR)
        simpa using this
      subst hdb
      intro r hrm
      simp only [] at hrm
      rw [hmod] at hrm
      show r.likes =
        (((db.likes ++ [(⟨db.nextLikeId, user.id, recipe.id⟩ : LikeR)]).filter
            (fun l => l.recipe_id == r.id)).length : Int)
      rw [hcount r.id]
      rcases List.mem_append.mp hrm with h1 | h2
      · rw [if_neg (by simpa using fun he => hl1ne r h1 he.symm)]
        rw [hsync r (hmeml1 r h1)]
        simp
      · rcases List.mem_cons.mp h2 with rfl | h3
        · show n = ((likeCount db recipe.id +
            (if (recipe.id == recipe.id) then 1 else 0) : Nat) : Int)
          rw [if_pos (by simp), hn, hsyncrec]
          push_cast
          omega
        · rw [if_neg (by simpa using fun he => hl2ne r h3 he.symm)]
          rw [hsync r (hmeml2 r h3)]
          simp

/-- C2 witness: toggling a like on a synchronized one-recipe database keeps
the counter equal to the Like-row count. -/
theorem C2_witness :
    likesSync (⟨[⟨1, "alice", "pw", "user"⟩],
      [⟨1, "Soup", "", 0, "", [], [], 1, "", 0⟩], [⟨1, 1, 1⟩], 2, 2, 2⟩ : DB) :=
  C2_amended_likes_sync.2.2.2
    ⟨[⟨1, "alice", "pw", "user"⟩], [⟨1, "Soup", "", 0, "", [], [], 0, "", 0⟩],
     [], 2, 2, 1⟩ 1 (some "alice") _ "liked" 1 (by decide) (by decide) (by rfl)

/-- C1 counterexample: the double-toggle claim is false as stated.  From the
empty database, the exposed operations register "alice", create "Soup" with
form field likes="-1", and one toggle produce a reachable state `dbC1` in
which alice and the recipe both exist, a Like row exists, and the counter is
0; toggling twice from `dbC1` ends with counter 1 ≠ 0 (the decrement's
floor-at-zero loses the update), so the counter is not returned to its
original value. -/
def dbC1 : DB :=
  ⟨[⟨1, "alice", "pw", "user"⟩], [⟨1, "Soup", "", 0, "", [], [], 0, "", 0⟩],
   [⟨1, 1, 1⟩], 2, 2, 2⟩

theorem C1_counterexample :
    ((register emptyDB (some "alice") (some "pw") none).toOption.bind (fun p =>
      (add_recipe p.1 { title := some "Soup", likes := some "-1" }
          none).toOption.bind (fun q =>
        (like_recipe q.1 1 (some "alice")).toOption.map (fun z => z.1)))) =
      some dbC1 ∧
    (dbC1.users.find? (fun u => some u.username == some "alice")).isSome =
      true ∧
    likesOf dbC1 1 = some 0 ∧
    likeRowExists dbC1 1 1 = true ∧
    ((like_recipe dbC1 1 (some "alice")).toOption.bind (fun p =>
      (like_recipe p.1 1 (some "alice")).toOption.bind (fun q =>
        likesOf q.1 1))) = some 1 := by
  refine ⟨by decide, by decide, by decide, by decide, by decide⟩

/-- C1 (amended): for every user and recipe that both exist, in any state
satisfying the documented invariants — at most one Like row per
(user, recipe) pair and each recipe's likes counter equal to its Like-row
count — performing ToggleLike twice in succession returns the likes counter
to its original value and restores the original existence state of the Like
row for that pair.  (Without the invariants the floor-at-zero decrement can
fail to return the counter; see the counterexample.) -/
theorem C1_amended_double_toggle (db : DB) (rid : Nat) (uname : String)
    (user : UserR) (r : RecipeR)
    (hsync : likesSync db) (huniq : likeUnique db)
    (hu : db.users.find? (fun x => some x.username == some uname) = some user)
    (hr : getRecipe db rid = some r) :
    ∃ db1 a1 n1 db2 a2 n2,
      like_recipe db rid (some uname) = .ok (db1, a1, n1) ∧
      like_recipe db1 rid (some uname) = .ok (db2, a2, n2) ∧
      likesOf db rid = some r.likes ∧
      likesOf db2 rid = some r.likes ∧
      likeRowExists db2 user.id rid = likeRowExists db user.id rid := by
  unfold getRecipe at hr
  have hcrid : r.id = rid := by simpa using List.find?_some hr
  subst hcrid
  have hrmem : r ∈ db.recipes := List.mem_of_find?_eq_some hr
  have hsr := hsync r hrmem
  have hlikes0 : 0 ≤ r.likes := by
    rw [hsr]
    exact Int.ofNat_nonneg _
  cases hfl : db.likes.find?
      (fun l => l.user_id == user.id && l.recipe_id == r.id) with
  | none =>
    -- first toggle likes, second unlikes
    have hallfalse : ∀ y ∈ db.likes,
        (fun l => l.user_id == user.id && l.recipe_id == r.id) y = false := by
      intro y hy
      have := List.find?_eq_none.mp hfl y hy
      simpa using this
    have e1 : like_recipe db r.id (some uname) =
        .ok ({ db with
               likes := db.likes ++ [⟨db.nextLikeId, user.id, r.id⟩]
               nextLikeId := db.nextLikeId + 1
               recipes := modifyFirst (fun x => x.id == r.id)
                 (fun x => { x with likes := r.likes + 1 }) db.recipes },
             "liked", r.likes + 1) := by
      unfold like_recipe
      rw [hu, hr]
      dsimp only []
      rw [hfl]
    have hfind1 : (modifyFirst (fun x => x.id == r.id)
          (fun x => { x with likes := r.likes + 1 }) db.recipes).find?
        (fun x => x.id == r.id) = some { r with likes := r.likes + 1 } :=
      find?_modifyFirst hr (by simp)
    have hfind2 : (db.likes ++ [(⟨db.nextLikeId, user.id, r.id⟩ : LikeR)]).find?
        (fun l => l.user_id == user.id && l.recipe_id == r.id) =
        some ⟨db.nextLikeId, user.id, r.id⟩ := by
      rw [find?_append_prefix_none _ hallfalse]
      simp
    have herase : eraseFirst
        (fun l => l.user_id == user.id && l.recipe_id == r.id)
        (db.likes ++ [(⟨db.nextLikeId, user.id, r.id⟩ : LikeR)]) = db.likes := by
      rw [eraseFirst_append_none _ hallfalse]
      have : eraseFirst (fun l => l.user_id == user.id && l.recipe_id == r.id)
          [(⟨db.nextLikeId, user.id, r.id⟩ : LikeR)] = [] := by
        simp [eraseFirst]
      rw [this, List.append_nil]
    have e2 : like_recipe
        ({ db with
           likes := db.likes ++ [⟨db.nextLikeId, user.id, r.id⟩]
           nextLikeId := db.nextLikeId + 1
           recipes := modifyFirst (fun x => x.id == r.id)
             (fun x => { x with likes := r.likes + 1 }) db.recipes } : DB)
        r.id (some uname) =
        .ok ({ db with
               likes := eraseFirst
                 (fun l => l.user_id == user.id && l.recipe_id == r.id)
                 (db.likes ++ [⟨db.nextLikeId, user.id, r.id⟩])
               nextLikeId := db.nextLikeId + 1
               recipes := modifyFirst (fun x => x.id == r.id)
                 (fun x => { x with likes := max 0 (r.likes + 1 - 1) })
                 (modifyFirst (fun x => x.id == r.id)
                   (fun x => { x with likes := r.likes + 1 }) db.recipes) },
             "unliked", max 0 (r.likes + 1 - 1)) := by
      unfold like_recipe
      dsimp only []
      rw [hu]
      dsimp only []
      rw [hfind1]
      dsimp only []
      rw [hfind2]
    refine ⟨_, _, _, _, _, _, e1, e2, ?_, ?_, ?_⟩
    · unfold likesOf getRecipe
      rw [hr]
      rfl
    · unfold likesOf getRecipe
      simp only []
      rw [find?_modifyFirst hfind1 (by simp)]
      simp only [Option.map_some', Option.some.injEq]
      show (0 ⊔ (r.likes + 1 - 1)) = r.likes
      omega
    · unfold likeRowExists
      simp only []
      rw [herase]
  | some l0 =>
    -- first toggle unlikes, second likes
    have hpl0 := List.find?_some hfl
    have hl0mem : l0 ∈ db.likes := List.mem_of_find?_eq_some hfl
    have hl0u : l0.user_id = user.id := by
      simp only [Bool.and_eq_true, beq_iff_eq] at hpl0
      exact hpl0.1
    have hl0r : l0.recipe_id = r.id := by
      simp only [Bool.and_eq_true, beq_iff_eq] at hpl0
      exact hpl0.2
    have hle1 : (db.likes.filter
        (fun l => l.user_id == user.id && l.recipe_id == r.id)).length ≤ 1 := by
      have h1 := huniq l0 hl0mem
      unfold pairCount at h1
      rw [hl0u, hl0r] at h1
      exact h1
    have hge1 : 1 ≤ r.likes := by
      rw [hsr]
      have hmemf : l0 ∈ db.likes.filter (fun l => l.recipe_id == r.id) :=
        List.mem_filter.mpr ⟨hl0mem, by simp [hl0r]⟩
      have hpos := List.length_pos.mpr (List.ne_nil_of_mem hmemf)
      unfold likeCount
      exact_mod_cast hpos
    have e1 : like_recipe db r.id (some uname) =
        .ok ({ db with
               likes := eraseFirst
                 (fun l => l.user_id == user.id && l.recipe_id == r.id)
                 db.likes
               recipes := modifyFirst (fun x => x.id == r.id)
                 (fun x => { x with likes := max 0 (r.likes - 1) })
                 db.recipes },
             "unliked", max 0 (r.likes - 1)) := by
      unfold like_recipe
      rw [hu, hr]
      dsimp only []
      rw [hfl]
    have hfind1 : (modifyFirst (fun x => x.id == r.id)
          (fun x => { x with likes := max 0 (r.likes - 1) }) db.recipes).find?
        (fun x => x.id == r.id) =
        some { r with likes := max 0 (r.likes - 1) } :=
      find?_modifyFirst hr (by simp)
    have hfind2 : (eraseFirst
          (fun l => l.user_id == user.id && l.recipe_id == r.id)
          db.likes).find?
        (fun l => l.user_id == user.id && l.recipe_id == r.id) = none :=
      find?_eraseFirst_of_le_one hle1
    have e2 : like_recipe
        ({ db with
           likes := eraseFirst
             (fun l => l.user_id == user.id && l.recipe_id == r.id) db.likes
           recipes := modifyFirst (fun x => x.id == r.id)
             (fun x => { x with likes := max 0 (r.likes - 1) })
             db.recipes } : DB) r.id (some uname) =
        .ok ({ db with
               likes := eraseFirst
                   (fun l => l.user_id == user.id && l.recipe_id == r.id)
                   db.likes ++
                 [⟨db.nextLikeId, user.id, r.id⟩]
               nextLikeId := db.nextLikeId + 1
               recipes := modifyFirst (fun x => x.id == r.id)
                 (fun x => { x with likes := max 0 (r.likes - 1) + 1 })
                 (modifyFirst (fun x => x.id == r.id)
                   (fun x => { x with likes := max 0 (r.likes - 1) })
                   db.recipes) },
             "liked", max 0 (r.likes - 1) + 1) := by
      unfold like_recipe
      dsimp only []
      rw [hu]
      dsimp only []
      rw [hfind1]
      dsimp only []
      rw [hfind2]
    refine ⟨_, _, _, _, _, _, e1, e2, ?_, ?_, ?_⟩
    · unfold likesOf getRecipe
      rw [hr]
      rfl
    · unfold likesOf getRecipe
      simp only []
      rw [find?_modifyFirst hfind1 (by simp)]
      simp only [Option.map_some', Option.some.injEq]
      show (0 ⊔ (r.likes - 1)) + 1 = r.likes
      omega
    · unfold likeRowExists
      simp only []
      have hright : (eraseFirst
            (fun l => l.user_id == user.id && l.recipe_id == r.id) db.likes ++
          [(⟨db.nextLikeId, user.id, r.id⟩ : LikeR)]).any
          (fun l => l.user_id == user.id && l.recipe_id == r.id) = true := by
        apply List.any_eq_true.mpr
        refine ⟨⟨db.nextLikeId, user.id, r.id⟩, ?_, by simp⟩
        exact List.mem_append_right _ (by simp)
      have hleft : db.likes.any
          (fun l => l.user_id == user.id && l.recipe_id == r.id) = true := by
        apply List.any_eq_true.mpr
        exact ⟨l0, hl0mem, hpl0⟩
      rw [hright, hleft]

/-- C1 witness: on a synchronized database (alice has liked "Soup" once,
counter 1, one Like row), a double toggle restores both the counter and the
Like-row existence. -/
theorem C1_witness :
    ∃ db1 a1 n1 db2 a2 n2,
      like_recipe
        (⟨[⟨1, "alice", "pw", "user"⟩],
          [⟨1, "Soup", "", 0, "", [], [], 1, "", 0⟩],
          [⟨1, 1, 1⟩], 2, 2, 2⟩ : DB) 1 (some "alice") = .ok (db1, a1, n1) ∧
      like_recipe db1 1 (some "alice") = .ok (db2, a2, n2) ∧
      likesOf
        (⟨[⟨1, "alice", "pw", "user"⟩],
          [⟨1, "Soup", "", 0, "", [], [], 1, "", 0⟩],
          [⟨1, 1, 1⟩], 2, 2, 2⟩ : DB) 1 = some (1 : Int) ∧
      likesOf db2 1 = some (1 : Int) ∧
      likeRowExists db2 1 1 = likeRowExists
        (⟨[⟨1, "alice", "pw", "user"⟩],
          [⟨1, "Soup", "", 0, "", [], [], 1, "", 0⟩],
          [⟨1, 1, 1⟩], 2, 2, 2⟩ : DB) 1 1 :=
  C1_amended_double_toggle
    ⟨[⟨1, "alice", "pw", "user"⟩], [⟨1, "Soup", "", 0, "", [], [], 1, "", 0⟩],
     [⟨1, 1, 1⟩], 2, 2, 2⟩ 1 "alice" ⟨1, "alice", "pw", "user"⟩
    ⟨1, "Soup", "", 0, "", [], [], 1, "", 0⟩
    (by decide) (by decide) (by decide) (by decide)

/-- Whether a `json.loads` result is a JSON array (the only shape the
normalizer's structured path accepts). -/
def isArrOpt : Option Json → Bool
  | some (Json.arr _) => true
  | _ => false

theorem strMapClean_clean {xs : List Json} {t : String}
    (h : t ∈ strMapClean xs) : pstrip t = t ∧ t ≠ "" := by
  unfold strMapClean at h
  rw [List.mem_filter] at h
  obtain ⟨hmem, hne⟩ := h
  obtain ⟨x, -, rfl⟩ := List.mem_map.mp hmem
  exact ⟨pstrip_idem _, by simpa using hne⟩

theorem splitClean_clean {s t : String} (h : t ∈ splitClean s) :
    pstrip t = t ∧ t ≠ "" := by
  unfold splitClean at h
  rw [List.mem_filter] at h
  obtain ⟨hmem, hne⟩ := h
  obtain ⟨l, -, rfl⟩ := List.mem_map.mp hmem
  refine ⟨?_, by simpa using hne⟩
  show pstrip (pstrip ⟨l⟩) = pstrip ⟨l⟩
  exact pstrip_idem _

/-- C5: for every string input whose stripped form is non-empty, when the
strict JSON parse does not yield an array the normalizer does not propagate
an error but falls through to splitting the string at commas/newlines,
trimming each segment, dropping empties and preserving order (that is what
`splitClean` does); and for every input of any type, every element of the
output is trimmed and non-empty. -/
theorem C5_fallthrough_and_clean :
    (∀ s : String, pstrip s ≠ "" → isArrOpt (jsonLoads (pstrip s)) = false →
        parse_list_field (some (Json.str s)) = splitClean (pstrip s)) ∧
    (∀ v : Option Json, ∀ t ∈ parse_list_field v, pstrip t = t ∧ t ≠ "") := by
  constructor
  · intro s hne hnarr
    unfold parse_list_field
    dsimp only []
    rw [if_neg hne]
    cases hj : jsonLoads (pstrip s) with
    | none => rfl
    | some j =>
      rw [hj] at hnarr
      cases j <;> first
        | rfl
        | (exact absurd hnarr (by simp [isArrOpt]))
  · intro v t ht
    match v with
    | none => simp [parse_list_field] at ht
    | some Json.null => simp [parse_list_field] at ht
    | some (Json.bool b) => simp [parse_list_field] at ht
    | some (Json.num m e f) => simp [parse_list_field] at ht
    | some (Json.obj kvs) => simp [parse_list_field] at ht
    | some Json.nanv => simp [parse_list_field] at ht
    | some (Json.infv b) => simp [parse_list_field] at ht
    | some (Json.arr xs) =>
      unfold parse_list_field at ht
      exact strMapClean_clean ht
    | some (Json.str v) =>
      unfold parse_list_field at ht
      dsimp only [] at ht
      by_cases he : pstrip v = ""
      · rw [if_pos he] at ht
        simp at ht
      · rw [if_neg he] at ht
        cases hj : jsonLoads (pstrip v) with
        | none =>
          rw [hj] at ht
          exact splitClean_clean ht
        | some j =>
          rw [hj] at ht
          cases j with
          | arr xs => exact strMapClean_clean ht
          | null => exact splitClean_clean ht
          | bool b => exact splitClean_clean ht
          | num m e f => exact splitClean_clean ht
          | str s2 => exact splitClean_clean ht
          | obj kvs => exact splitClean_clean ht
          | nanv => exact splitClean_clean ht
          | infv b => exact splitClean_clean ht

/-- C5 witness: "a, b,," is not JSON, falls through to the delimiter path,
and its output element "b" is trimmed and non-empty. -/
theorem C5_witness :
    parse_list_field (some (Json.str "a, b,,")) = splitClean (pstrip "a, b,,") ∧
    (pstrip "b" = "b" ∧ "b" ≠ "") := by
  constructor
  · exact C5_fallthrough_and_clean.1 "a, b,," (by decide) (by decide)
  · exact C5_fallthrough_and_clean.2 (some (Json.str "a, b,,")) "b" (by decide)

-- -------------------- C4: equivalent representations --------------------

/-- A "clean token" of a logical list: non-empty, already stripped, and free
of separators, quotes, backslashes and control characters, so that the same
token can appear verbatim in every representation. -/
def cleanToken (t : String) : Prop :=
  t ≠ "" ∧ pstrip t = t ∧
  ∀ c ∈ t.data, c ≠ ',' ∧ c ≠ '"' ∧ c ≠ '\\' ∧ 32 ≤ c.toNat

instance cleanToken.decidable (t : String) : Decidable (cleanToken t) := by
  unfold cleanToken; infer_instance

/-- Join strings with a separator (the delimited representations of a
logical list). -/
def joinWith (sep : String) : List String → String
  | [] => ""
  | [t] => t
  | t :: t2 :: ts => t ++ sep ++ joinWith sep (t2 :: ts)

/-- The JSON-array string representation of a list of tokens. -/
def jsonArrRepr (ts : List String) : String :=
  "[" ++ joinWith "," (ts.map (fun t => "\"" ++ t ++ "\"")) ++ "]"

/-- Character content of a JSON string literal for a token. -/
def strLitChars (t : String) : List Char := '"' :: t.data ++ ['"']

/-- Character content of a non-empty JSON array body (everything after the
opening bracket, including the closing one). -/
def itemsChars : List String → List Char
  | [] => [']']
  | [t] => strLitChars t ++ [']']
  | t :: t2 :: ts => strLitChars t ++ ',' :: itemsChars (t2 :: ts)

/-- Tokens whose characters the JSON string-literal parser passes through
unchanged. -/
def cleanChars (t : String) : Prop :=
  ∀ c ∈ t.data, c ≠ '"' ∧ c ≠ '\\' ∧ 32 ≤ c.toNat

theorem String.data_ne_nil {t : String} (h : t ≠ "") : t.data ≠ [] := by
  intro hd
  exact h (String.ext (by rw [hd]))

theorem quotedJoin_data : ∀ (ts : List String) (t : String),
    (joinWith "," ((t :: ts).map (fun x => "\"" ++ x ++ "\""))).data ++ [']'] =
      itemsChars (t :: ts) := by
  intro ts
  induction ts with
  | nil =>
    intro t
    show ("\"" ++ t ++ "\"").data ++ [']'] = strLitChars t ++ [']']
    rw [String.data_append, String.data_append]
    rfl
  | cons t2 ts' ih =>
    intro t
    show ((("\"" ++ t ++ "\"") ++ "," ++
        joinWith "," ((t2 :: ts').map (fun x => "\"" ++ x ++ "\""))).data)
        ++ [']'] = strLitChars t ++ ',' :: itemsChars (t2 :: ts')
    rw [String.data_append, String.data_append]
    rw [List.append_assoc, List.append_assoc]
    rw [ih t2]
    simp [strLitChars, List.append_assoc]

theorem jsonArrRepr_data (ts : List String) :
    (jsonArrRepr ts).data = '[' ::
      (match ts with | [] => [']'] | _ :: _ => itemsChars ts) := by
  cases ts with
  | nil => rfl
  | cons t rest =>
    unfold jsonArrRepr
    rw [String.data_append, String.data_append]
    show ['['] ++ ((joinWith ","
        ((t :: rest).map (fun x => "\"" ++ x ++ "\""))).data ++ [']']) =
      '[' :: itemsChars (t :: rest)
    rw [quotedJoin_data rest t]
    rfl

theorem parseStrCore_clean :
    ∀ (t : List Char) (fuel : Nat) (rest : List Char),
      (∀ c ∈ t, c ≠ '"' ∧ c ≠ '\\' ∧ 32 ≤ c.toNat) → t.length < fuel →
      parseStrCore fuel (t ++ '"' :: rest) = some (t, rest) := by
  intro t
  induction t with
  | nil =>
    intro fuel rest hc hf
    cases fuel with
    | zero => omega
    | succ f =>
      show parseStrCore (f + 1) ('"' :: rest) = some ([], rest)
      unfold parseStrCore
      rw [if_pos rfl]
  | cons c cs ih =>
    intro fuel rest hc hf
    cases fuel with
    | zero => omega
    | succ f =>
      obtain ⟨h1, h2, h3⟩ := hc c (by simp)
      have hf' : cs.length < f := by simp at hf; omega
      show parseStrCore (f + 1) (c :: (cs ++ '"' :: rest)) =
        some (c :: cs, rest)
      unfold parseStrCore
      rw [if_neg h1, if_neg h2, if_neg (by omega)]
      rw [ih f rest (fun x hx => hc x (by simp [hx])) hf']

theorem parseValue_strLit (f : Nat) (t : String) (rest : List Char)
    (hc : cleanChars t) :
    parseValue (f + 1) ('"' :: (t.data ++ '"' :: rest)) =
      some (Json.str t, rest) := by
  unfold parseValue
  have hsk : skipWs ('"' :: (t.data ++ '"' :: rest)) =
      '"' :: (t.data ++ '"' :: rest) := by
    unfold skipWs
    rw [List.dropWhile_cons_of_neg (by decide)]
  rw [hsk]
  dsimp only []
  rw [if_pos rfl]
  rw [parseStrCore_clean t.data _ rest hc
    (by simp only [List.length_append, List.length_cons]; omega)]

theorem parseItems_clean :
    ∀ (ts : List String) (t : String) (fuel : Nat),
      (∀ x ∈ t :: ts, cleanChars x) → 2 * (t :: ts).length ≤ fuel →
      parseItems fuel (itemsChars (t :: ts)) =
        some ((t :: ts).map Json.str, []) := by
  intro ts
  induction ts with
  | nil =>
    intro t fuel hc hf
    obtain ⟨f, rfl⟩ : ∃ f, fuel = f + 1 :=
      ⟨fuel - 1, by simp only [List.length_cons] at hf; omega⟩
    obtain ⟨f2, rfl⟩ : ∃ f2, f = f2 + 1 :=
      ⟨f - 1, by simp only [List.length_cons] at hf; omega⟩
    show parseItems (f2 + 1 + 1) (strLitChars t ++ [']']) =
      some ([Json.str t], [])
    unfold parseItems
    have heq : strLitChars t ++ [']'] =
        '"' :: (t.data ++ '"' :: [']']) := by
      unfold strLitChars
      simp
    rw [heq]
    rw [parseValue_strLit f2 t [']'] (hc t (by simp))]
    rfl
  | cons t2 ts' ih =>
    intro t fuel hc hf
    obtain ⟨f, rfl⟩ : ∃ f, fuel = f + 1 :=
      ⟨fuel - 1, by simp only [List.length_cons] at hf; omega⟩
    obtain ⟨f2, rfl⟩ : ∃ f2, f = f2 + 1 :=
      ⟨f - 1, by simp only [List.length_cons] at hf; omega⟩
    show parseItems (f2 + 1 + 1)
        (strLitChars t ++ ',' :: itemsChars (t2 :: ts')) =
      some (Json.str t :: (t2 :: ts').map Json.str, [])
    unfold parseItems
    have heq : strLitChars t ++ ',' :: itemsChars (t2 :: ts') =
        '"' :: (t.data ++ '"' :: (',' :: itemsChars (t2 :: ts'))) := by
      unfold strLitChars
      simp
    rw [heq]
    rw [parseValue_strLit f2 t _ (hc t (by simp))]
    dsimp only []
    have hsk : skipWs (',' :: itemsChars (t2 :: ts')) =
        ',' :: itemsChars (t2 :: ts') := by
      unfold skipWs
      rw [List.dropWhile_cons_of_neg (by decide)]
    rw [hsk]
    dsimp only []
    rw [if_pos rfl]
    have hrec := ih t2 (f2 + 1) (fun x hx => hc x (by
      simp only [List.mem_cons] at hx ⊢
      tauto)) (by simp at hf ⊢; omega)
    rw [hrec]

theorem itemsChars_head (t : String) (ts : List String) :
    ∃ tail, itemsChars (t :: ts) = '"' :: tail := by
  cases ts with
  | nil => exact ⟨(t.data ++ ['"']) ++ [']'], rfl⟩
  | cons t2 ts' => exact ⟨(t.data ++ ['"']) ++ ',' :: itemsChars (t2 :: ts'), rfl⟩

theorem itemsChars_length : ∀ (t : String) (ts : List String),
    2 * (t :: ts).length ≤ (itemsChars (t :: ts)).length := by
  intro t ts
  induction ts generalizing t with
  | nil => simp [itemsChars, strLitChars]
  | cons t2 ts' ih =>
    have h2 := ih t2
    show 2 * (t :: t2 :: ts').length ≤
      (strLitChars t ++ ',' :: itemsChars (t2 :: ts')).length
    simp only [List.length_append, List.length_cons, strLitChars,
      List.length_append] at h2 ⊢
    omega

theorem parseValue_arrRepr (t : String) (rest : List String) (fuel : Nat)
    (hc : ∀ x ∈ t :: rest, cleanChars x)
    (hf : 2 * (t :: rest).length ≤ fuel) :
    parseValue (fuel + 1) ('[' :: itemsChars (t :: rest)) =
      some (Json.arr ((t :: rest).map Json.str), []) := by
  unfold parseValue
  have hsk : skipWs ('[' :: itemsChars (t :: rest)) =
      '[' :: itemsChars (t :: rest) := by
    unfold skipWs
    rw [List.dropWhile_cons_of_neg (by decide)]
  rw [hsk]
  dsimp only []
  rw [if_neg (by decide), if_pos rfl]
  obtain ⟨tail, htail⟩ := itemsChars_head t rest
  have hsk2 : skipWs (itemsChars (t :: rest)) = itemsChars (t :: rest) := by
    rw [htail]
    unfold skipWs
    rw [List.dropWhile_cons_of_neg (by decide)]
  rw [hsk2]
  split
  · next r heq =>
    rw [htail] at heq
    simp at heq
  · rw [parseItems_clean rest t fuel hc hf]

theorem jsonLoads_arrRepr (ts : List String)
    (hc : ∀ x ∈ ts, cleanChars x) :
    jsonLoads (jsonArrRepr ts) = some (Json.arr (ts.map Json.str)) := by
  cases ts with
  | nil => rfl
  | cons t rest =>
    unfold jsonLoads
    have hdata := jsonArrRepr_data (t :: rest)
    dsimp only [] at hdata
    have hlen : (itemsChars (t :: rest)).length ≤ (jsonArrRepr (t :: rest)).length := by
      show _ ≤ (jsonArrRepr (t :: rest)).data.length
      rw [hdata]
      simp
    rw [hdata]
    rw [parseValue_arrRepr t rest (jsonArrRepr (t :: rest)).length hc
      (le_trans (itemsChars_length t rest) hlen)]
    rfl

theorem parseNumber_shape {cs : List Char} {j : Json} {r : List Char}
    (h : parseNumber cs = some (j, r)) : ∃ m e b, j = Json.num m e b := by
  unfold parseNumber at h
  dsimp only [] at h
  split at h
  · simp at h
  · split at h
    · simp at h
    · split at h
      · simp at h
      · split at h
        · split at h
          · split at h
            · simp at h
            · simp only [Option.some.injEq, Prod.mk.injEq] at h
              exact ⟨_, _, _, h.1.symm⟩
          · simp only [Option.some.injEq, Prod.mk.injEq] at h
            exact ⟨_, _, _, h.1.symm⟩
        · simp only [Option.some.injEq, Prod.mk.injEq] at h
          exact ⟨_, _, _, h.1.symm⟩

theorem parseValue_arr_head {fuel : Nat} {cs : List Char} {xs : List Json}
    {r : List Char} (h : parseValue fuel cs = some (Json.arr xs, r)) :
    ∃ tail, skipWs cs = '[' :: tail := by
  cases fuel with
  | zero => simp [parseValue] at h
  | succ f =>
    unfold parseValue at h
    cases hsk : skipWs cs with
    | nil => rw [hsk] at h; simp at h
    | cons c rest =>
      rw [hsk] at h
      by_cases h1 : c = '['
      · exact ⟨rest, by rw [h1]⟩
      exfalso
      dsimp only [] at h
      (repeat' split at h) <;>
        first
          | (obtain ⟨m, e, b, hj⟩ := parseNumber_shape h; simp at hj)
          | simp_all

theorem jsonLoads_arr_head {s : String} {xs : List Json}
    (h : jsonLoads s = some (Json.arr xs)) :
    ∃ tail, skipWs s.data = '[' :: tail := by
  unfold jsonLoads at h
  cases hp : parseValue (s.length + 1) s.data with
  | none => rw [hp] at h; simp at h
  | some p =>
    rw [hp] at h
    obtain ⟨j, rest⟩ := p
    dsimp only [] at h
    split at h
    · simp only [Option.some.injEq] at h
      subst h
      exact parseValue_arr_head hp
    · simp at h

theorem getLast?_append_right {l l' : List α} {a : α}
    (h : l'.getLast? = some a) : (l ++ l').getLast? = some a := by
  rw [List.getLast?_append, h]
  rfl

theorem isPySpace_of_isJsonWs {c : Char} (h : isJsonWs c = true) :
    isPySpace c = true := by
  have hc : ((c = ' ' ∨ c = '\t') ∨ c = '\n') ∨ c = '\r' := by
    simpa [isJsonWs] using h
  rcases hc with ((rfl | rfl) | rfl) | rfl <;> decide

theorem skipWs_eq_self {l : List Char}
    (h : ∀ a ∈ l.head?, isPySpace a = false) : skipWs l = l := by
  apply dropWhile_eq_self_of_head
  intro a ha
  by_contra hw
  have : isJsonWs a = true := by
    cases hb : isJsonWs a
    · exact absurd hb hw
    · rfl
  have := isPySpace_of_isJsonWs this
  rw [h a ha] at this
  exact Bool.false_ne_true this

theorem clean_head_not_space {t : String} (h : pstrip t = t) :
    ∀ a ∈ t.data.head?, isPySpace a = false := by
  intro a ha
  have hd : pstripList t.data = t.data := pstrip_eq_iff.mp h
  rw [← hd] at ha
  exact pstripList_head _ a ha

theorem clean_getLast_not_space {t : String} (h : pstrip t = t) :
    ∀ a ∈ t.data.getLast?, isPySpace a = false := by
  intro a ha
  have hd : pstripList t.data = t.data := pstrip_eq_iff.mp h
  rw [← hd] at ha
  exact pstripList_getLast _ a ha

theorem joinWith_data (sep : String) (t t2 : String) (ts : List String) :
    (joinWith sep (t :: t2 :: ts)).data =
      t.data ++ sep.data ++ (joinWith sep (t2 :: ts)).data := by
  show (t ++ sep ++ joinWith sep (t2 :: ts)).data = _
  rw [String.data_append, String.data_append]

theorem joinWith_ne_nil (sep : String) (t : String) (ts : List String)
    (ht : t ≠ "") : (joinWith sep (t :: ts)).data ≠ [] := by
  cases ts with
  | nil => exact String.data_ne_nil ht
  | cons t2 ts' =>
    rw [joinWith_data]
    simp only [ne_eq, List.append_eq_nil]
    rintro ⟨⟨h1, -⟩, -⟩
    exact String.data_ne_nil ht h1

theorem joinWith_head? (sep : String) (t : String) (ts : List String)
    (ht : t ≠ "") :
    (joinWith sep (t :: ts)).data.head? = t.data.head? := by
  cases ts with
  | nil => rfl
  | cons t2 ts' =>
    rw [joinWith_data, List.append_assoc]
    cases hd : t.data with
    | nil => exact absurd hd (String.data_ne_nil ht)
    | cons c cs => rfl

theorem joinWith_getLast? (sep : String) :
    ∀ (ts : List String) (t : String), (∀ x ∈ t :: ts, x ≠ "") →
      ∃ x ∈ t :: ts,
        (joinWith sep (t :: ts)).data.getLast? = x.data.getLast? := by
  intro ts
  induction ts with
  | nil =>
    intro t h
    exact ⟨t, by simp, rfl⟩
  | cons t2 ts' ih =>
    intro t h
    obtain ⟨x, hx, hlast⟩ :=
      ih t2 (fun y hy => h y (by simp only [List.mem_cons] at hy ⊢; tauto))
    refine ⟨x, by simp only [List.mem_cons] at hx ⊢; tauto, ?_⟩
    rw [joinWith_data]
    rw [List.getLast?_append, hlast]
    have hxne : x ≠ "" := h x (by simp only [List.mem_cons] at hx ⊢; tauto)
    cases hgl : x.data.getLast? with
    | none =>
      exfalso
      cases hxd : x.data with
      | nil => exact String.data_ne_nil hxne hxd
      | cons c cs =>
        rw [hxd] at hgl
        simp [List.getLast?_eq_getLast] at hgl
    | some a => rfl

theorem pstrip_joinWith (sep : String) (t : String) (ts : List String)
    (h : ∀ x ∈ t :: ts, pstrip x = x ∧ x ≠ "") :
    pstrip (joinWith sep (t :: ts)) = joinWith sep (t :: ts) := by
  apply pstrip_eq_iff.mpr
  apply pstripList_eq_self
  · rw [joinWith_head? sep t ts (h t (by simp)).2]
    exact clean_head_not_space (h t (by simp)).1
  · obtain ⟨x, hx, hlast⟩ :=
      joinWith_getLast? sep ts t (fun y hy => (h y hy).2)
    rw [hlast]
    exact clean_getLast_not_space (h x hx).1

theorem splitSeps_joinWith (sep : String) (sepc : Char)
    (hsd : sep.data = [sepc]) (hsep : isSepChar sepc = true) :
    ∀ (ts : List String) (t : String),
      (∀ x ∈ t :: ts, ∀ c ∈ x.data, isSepChar c = false) →
      splitSeps (joinWith sep (t :: ts)).data =
        (t :: ts).map String.data := by
  intro ts
  induction ts with
  | nil =>
    intro t h
    show splitSeps t.data = [t.data]
    exact splitSeps_no_sep (h t (by simp))
  | cons t2 ts' ih =>
    intro t h
    rw [joinWith_data, hsd, List.append_assoc]
    show splitSeps (t.data ++ sepc :: (joinWith sep (t2 :: ts')).data) = _
    rw [splitSeps_append_sep (h t (by simp)) hsep]
    rw [ih t2 (fun x hx => h x (by simp only [List.mem_cons] at hx ⊢; tauto))]
    rfl

theorem cleanup_map : ∀ ts : List String,
    (∀ t ∈ ts, pstrip t = t ∧ t ≠ "") →
    ((ts.map String.data).map (fun l => (⟨pstripList l⟩ : String))).filter
      (fun t => t ≠ "") = ts := by
  intro ts h
  induction ts with
  | nil => rfl
  | cons t rest ih =>
    obtain ⟨h1, h2⟩ := h t (by simp)
    have hps : (⟨pstripList t.data⟩ : String) = t := h1
    simp only [List.map_cons, List.filter_cons, hps]
    rw [if_pos (by simpa using h2)]
    rw [ih (fun x hx => h x (by simp [hx]))]

theorem pfl_fallthrough {s : String} (hne : pstrip s ≠ "")
    (hnarr : ∀ xs, jsonLoads (pstrip s) ≠ some (Json.arr xs)) :
    parse_list_field (some (Json.str s)) = splitClean (pstrip s) := by
  unfold parse_list_field
  dsimp only []
  rw [if_neg hne]
  cases hj : jsonLoads (pstrip s) with
  | none => rfl
  | some j =>
    cases j with
    | arr xs => exact absurd hj (hnarr xs)
    | null => rfl
    | bool b => rfl
    | num m e f => rfl
    | str s2 => rfl
    | obj kvs => rfl
    | nanv => rfl
    | infv b => rfl

theorem pfl_str_arr {s : String} (hne : pstrip s ≠ "") {xs : List Json}
    (hj : jsonLoads (pstrip s) = some (Json.arr xs)) :
    parse_list_field (some (Json.str s)) = strMapClean xs := by
  unfold parse_list_field
  dsimp only []
  rw [if_neg hne, hj]

theorem strMapClean_of_clean : ∀ ts : List String,
    (∀ t ∈ ts, pstrip t = t ∧ t ≠ "") →
    strMapClean (ts.map Json.str) = ts := by
  intro ts h
  induction ts with
  | nil => rfl
  | cons t rest ih =>
    obtain ⟨h1, h2⟩ := h t (by simp)
    unfold strMapClean
    simp only [List.map_cons, List.filter_cons]
    have hpy : pstrip (pyStr (Json.str t)) = t := h1
    rw [hpy]
    rw [if_pos (by simpa using h2)]
    unfold strMapClean at ih
    rw [ih (fun x hx => h x (by simp [hx]))]

theorem itemsChars_getLast? :
    ∀ (t : String) (ts : List String),
      (itemsChars (t :: ts)).getLast? = some ']' := by
  intro t ts
  induction ts generalizing t with
  | nil =>
    show (strLitChars t ++ [']']).getLast? = some ']'
    exact getLast?_append_right rfl
  | cons t2 ts' ih =>
    show (strLitChars t ++ ',' :: itemsChars (t2 :: ts')).getLast? = some ']'
    apply getLast?_append_right
    show (([','] ++ itemsChars (t2 :: ts')).getLast?) = some ']'
    exact getLast?_append_right (ih t2)

theorem jsonArrRepr_ne_empty (ts : List String) : jsonArrRepr ts ≠ "" := by
  intro h
  have := jsonArrRepr_data ts
  rw [h] at this
  simp at this

theorem jsonArrRepr_pstrip (ts : List String) :
    pstrip (jsonArrRepr ts) = jsonArrRepr ts := by
  apply pstrip_eq_iff.mpr
  apply pstripList_eq_self
  · rw [jsonArrRepr_data]
    intro a ha
    simp only [List.head?_cons, Option.mem_def, Option.some.injEq] at ha
    subst ha
    decide
  · rw [jsonArrRepr_data]
    cases ts with
    | nil =>
      intro a ha
      simp only [Option.mem_def] at ha
      have : (['[', ']'] : List Char).getLast? = some ']' := rfl
      rw [show ('[' :: (match ([] : List String) with
        | [] => [']'] | _ :: _ => itemsChars [])) = ['[', ']'] from rfl] at ha
      rw [this] at ha
      cases ha
      decide
    | cons t rest =>
      intro a ha
      have hil := itemsChars_getLast? t rest
      have : ('[' :: itemsChars (t :: rest)).getLast? = some ']' := by
        show ((['['] ++ itemsChars (t :: rest)).getLast?) = some ']'
        exact getLast?_append_right hil
      simp only [Option.mem_def] at ha
      rw [this] at ha
      cases ha
      decide

theorem pfl_join_delim (sep : String) (sepc : Char)
    (hsd : sep.data = [sepc]) (hsep : isSepChar sepc = true)
    (t : String) (rest : List String)
    (hps : ∀ x ∈ t :: rest, pstrip x = x ∧ x ≠ "")
    (hsf : ∀ x ∈ t :: rest, ∀ c ∈ x.data, isSepChar c = false)
    (hhd : t.data.headD 'A' ≠ '[') :
    parse_list_field (some (Json.str (joinWith sep (t :: rest)))) =
      t :: rest := by
  have hfix := pstrip_joinWith sep t rest hps
  have hne : joinWith sep (t :: rest) ≠ "" := by
    intro h
    exact joinWith_ne_nil sep t rest (hps t (by simp)).2 (by rw [h])
  have hhq : ∀ a ∈ (joinWith sep (t :: rest)).data.head?,
      isPySpace a = false := by
    rw [joinWith_head? sep t rest (hps t (by simp)).2]
    exact clean_head_not_space (hps t (by simp)).1
  have hnarr : ∀ xs, jsonLoads (pstrip (joinWith sep (t :: rest))) ≠
      some (Json.arr xs) := by
    rw [hfix]
    intro xs h
    obtain ⟨tail, htail⟩ := jsonLoads_arr_head h
    rw [skipWs_eq_self hhq] at htail
    have hh := joinWith_head? sep t rest (hps t (by simp)).2
    rw [htail] at hh
    cases hd : t.data with
    | nil => exact String.data_ne_nil (hps t (by simp)).2 hd
    | cons c cs =>
      rw [hd] at hh
      simp only [List.head?_cons, Option.some.injEq] at hh
      rw [hd] at hhd
      simp only [List.headD_cons] at hhd
      exact hhd hh.symm
  rw [pfl_fallthrough (by rw [hfix]; exact hne) hnarr]
  rw [hfix]
  unfold splitClean
  rw [splitSeps_joinWith sep sepc hsd hsep rest t hsf]
  exact cleanup_map (t :: rest) hps

/-- C4: every representation of the same logical list of clean tokens — a
native list, a JSON-array string, a comma-delimited string or a
newline-delimited string — normalizes to the same sequence, namely the token
list itself.  Tokens must be non-empty, stripped, and free of separators,
quotes, backslashes and control characters (otherwise the representations
denote different logical lists), and the first token must not start with a
bracket (otherwise the delimited string itself parses as JSON). -/
theorem C4_equivalent_representations (ts : List String)
    (hclean : ∀ t ∈ ts, cleanToken t)
    (hhead : (ts.headD "").data.headD 'A' ≠ '[') :
    parse_list_field (some (Json.arr (ts.map Json.str))) = ts ∧
    parse_list_field (some (Json.str (jsonArrRepr ts))) = ts ∧
    parse_list_field (some (Json.str (joinWith "," ts))) = ts ∧
    parse_list_field (some (Json.str (joinWith "\n" ts))) = ts := by
  have hps : ∀ t ∈ ts, pstrip t = t ∧ t ≠ "" := fun t ht =>
    ⟨(hclean t ht).2.1, (hclean t ht).1⟩
  have hcc : ∀ t ∈ ts, cleanChars t := by
    intro t ht c hc
    obtain ⟨-, -, h3⟩ := hclean t ht
    obtain ⟨-, hq, hb, hn⟩ := h3 c hc
    exact ⟨hq, hb, hn⟩
  have hsf : ∀ t ∈ ts, ∀ c ∈ t.data, isSepChar c = false := by
    intro t ht c hc
    obtain ⟨-, -, h3⟩ := hclean t ht
    obtain ⟨hcomma, -, -, hn⟩ := h3 c hc
    unfold isSepChar
    simp only [Bool.or_eq_false_iff, decide_eq_false_iff_not]
    refine ⟨hcomma, ?_⟩
    intro he
    subst he
    exact absurd hn (by decide)
  refine ⟨?_, ?_, ?_, ?_⟩
  · exact strMapClean_of_clean ts hps
  · rw [pfl_str_arr (by rw [jsonArrRepr_pstrip]; exact jsonArrRepr_ne_empty ts)
      (by rw [jsonArrRepr_pstrip]; exact jsonLoads_arrRepr ts hcc)]
    exact strMapClean_of_clean ts hps
  · cases ts with
    | nil => rfl
    | cons t rest =>
      exact pfl_join_delim "," ',' rfl (by decide) t rest hps hsf
        (by simpa using hhead)
  · cases ts with
    | nil => rfl
    | cons t rest =>
      exact pfl_join_delim "\n" '\n' rfl (by decide) t rest hps hsf
        (by simpa using hhead)

/-- C4 witness: for the list ["a", "b"], the native list, the JSON string
`["a","b"]`, the comma form "a,b" and the newline form "a\nb" all normalize
to ["a", "b"]. -/
theorem C4_witness :
    parse_list_field (some (Json.arr [Json.str "a", Json.str "b"])) =
      ["a", "b"] ∧
    parse_list_field (some (Json.str "[\"a\",\"b\"]")) = ["a", "b"] ∧
    parse_list_field (some (Json.str "a,b")) = ["a", "b"] ∧
    parse_list_field (some (Json.str "a\nb")) = ["a", "b"] := by
  obtain ⟨h1, h2, h3, h4⟩ := C4_equivalent_representations ["a", "b"]
    (by decide) (by decide)
  refine ⟨h1, ?_, ?_, ?_⟩
  · rw [show ("[\"a\",\"b\"]" : String) = jsonArrRepr ["a", "b"] from by decide]
    exact h2
  · rw [show ("a,b" : String) = joinWith "," ["a", "b"] from by decide]
    exact h3
  · rw [show ("a\nb" : String) = joinWith "\n" ["a", "b"] from by decide]
    exact h4
